import Mathlib

/-!
Shallow embedding of the `vec-utils` crate (files `src/vec.rs`,
`src/vec/general_zip.rs`, `src/boxed.rs`) and proofs about it.

Modelling conventions:
* A raw pointer is modelled as a `Nat` (an abstract address).  The base
  pointer of an allocation identifies the allocation.
* `std::alloc::Layout` is a `(size, align)` pair of naturals.
* Since element types in Lean carry no memory layout, every function that
  checks `Layout::new::<T>()` receives the layout of the corresponding
  type as an explicit argument (or, for the variadic tuples, reads it from
  the tuple description).
* A fallible user transform `F: FnMut(..) -> R` with `R: Try` is modelled
  as a function into `Except ε β` (`R::Ok = β`, `R::Error = ε`).
* Memory that the Rust code mutates in place is modelled by value:
  an `Input` keeps the not-yet-consumed elements of its buffer, an
  `Output` keeps the list of values written so far.  Reads that would be
  out of bounds in Rust (undefined behaviour) are modelled with
  `Inhabited` default values.
* Element drops are observable: the engine functions return, next to the
  `Result`, the lists of input/output elements that the code drops.
-/

namespace VecUtils

/-! ## Definitions -/

/-- Model of `std::alloc::Layout`: size and alignment. -/
structure Layout where
  size : Nat
  align : Nat
deriving DecidableEq, Repr

/-- Model of an owned `Vec<T>`: base pointer of the allocation, the stored
elements (`len = data.length`), and the allocation capacity. -/
structure Vec (α : Type) where
  alloc : Nat
  data : List α
  cap : Nat
deriving DecidableEq, Repr

/-- Model of `Input<T>` (src/vec.rs): `start` is the base pointer, `rest`
holds the elements in `[ptr, start+len)` that have not been read yet,
`pos = ptr - start` is the cursor offset, `len`/`cap` are the original
length and capacity, `drop_alloc` is the "still owns the allocation" bit. -/
structure Input (α : Type) where
  start : Nat
  rest : List α
  pos : Nat
  len : Nat
  cap : Nat
  drop_alloc : Bool
deriving DecidableEq, Repr

/-- Model of `impl From<Vec<T>> for Input<T>` (src/vec.rs). -/
def Input.fromVec (v : Vec α) : Input α :=
  { start := v.alloc, rest := v.data, pos := 0, len := v.data.length,
    cap := v.cap, drop_alloc := true }

/-- Advance the cursor by `n` elements (`ptr = ptr.add(n)` after reading). -/
def Input.advance (i : Input α) (n : Nat) : Input α :=
  { i with rest := i.rest.drop n, pos := i.pos + n }

/-- `TupleElem::next` for `Vec<A>` (src/vec/general_zip.rs): read the value
at the cursor and advance.  The default value models the undefined
behaviour of reading past the end. -/
def Input.next [Inhabited α] (i : Input α) : α × Input α :=
  (i.rest.headD default, i.advance 1)

/-- Model of `Output<T>` (src/vec.rs): base pointer, values written so far
(the write cursor is `start + written.length`), and capacity. -/
structure Output (β : Type) where
  start : Nat
  written : List β
  cap : Nat
deriving DecidableEq, Repr

def runSeq (g : ρ → Except ε β) : List ρ → List β ⊕ (Nat × ε × List β)
  | [] => Sum.inl []
  | r :: rs =>
    match g r with
    | .error e => Sum.inr (0, e, [])
    | .ok v =>
      match runSeq g rs with
      | Sum.inl outs => Sum.inl (v :: outs)
      | Sum.inr (k, e, outs) => Sum.inr (k + 1, e, v :: outs)

def collectResults (g : ρ → Except ε β) : List ρ → Except ε (List β)
  | [] => .ok []
  | r :: rs =>
    match g r with
    | .error e => .error e
    | .ok v => (collectResults g rs).map (v :: ·)

def callsOf (g : ρ → Except ε β) : List ρ → List ρ
  | [] => []
  | r :: rs =>
    match g r with
    | .error _ => [r]
    | .ok _ => r :: callsOf g rs

def okPrefix (g : ρ → Except ε β) : List ρ → List β
  | [] => []
  | r :: rs =>
    match g r with
    | .error _ => []
    | .ok v => v :: okPrefix g rs

/-- Model of `UninitBox`: a raw allocation of a recorded layout. -/
structure UninitBox where
  ptr : Nat
  layout : Layout
deriving DecidableEq, Repr

/-- Model of an initialized `Box<T>`: the allocation and the stored value. -/
structure MBox (α : Type) where
  ptr : Nat
  value : α
deriving DecidableEq, Repr

/-- Model of `UninitBox::from_layout`.  `alloc` models the global
allocator (mapping a layout to the address it returns); a returned `0`
models a null pointer, on which `handle_alloc_error` aborts (`none`).
A zero-sized layout gets the dangling pointer `layout.align`. -/
def UninitBox.from_layout (alloc : Layout → Nat) (layout : Layout) :
    Option UninitBox :=
  if layout.size = 0 then
    some { ptr := layout.align, layout := layout }
  else
    if alloc layout = 0 then none
    else some { ptr := alloc layout, layout := layout }

/-- Model of `UninitBox::new::<T>()`; `layoutT` stands for
`Layout::new::<T>()`. -/
def UninitBox.new (alloc : Layout → Nat) (layoutT : Layout) : Option UninitBox :=
  UninitBox.from_layout alloc layoutT

/-- Model of `UninitBox::init::<T>`: `assert_eq!(self.layout, Layout::new::<T>())`
then write the value into the existing allocation.  `none` models the
panic of the failed assertion. -/
def UninitBox.init (b : UninitBox) (layoutT : Layout) (value : α) :
    Option (MBox α) :=
  if b.layout = layoutT then some { ptr := b.ptr, value := value }
  else none

/-- Model of `BoxExt::take_box` for `Box<T>`: read the value out and return
the allocation as an `UninitBox` with layout `Layout::new::<T>()`. -/
def take_box (layoutT : Layout) (bx : MBox α) : UninitBox × α :=
  ({ ptr := bx.ptr, layout := layoutT }, bx.value)

/-- Model of the `Vec` built by `collect::<Vec<_>>()` on a fresh buffer:
an empty iterator collects into `Vec::new()` (no allocation: dangling
pointer `align`, capacity 0), otherwise the collection allocates a fresh
buffer, modelled by the `freshAlloc`/`freshCap` parameters. -/
def collectVec (layoutOut : Layout) (freshAlloc freshCap : Nat)
    (outs : List β) : Vec β :=
  if outs.isEmpty then { alloc := layoutOut.align, data := [], cap := 0 }
  else { alloc := freshAlloc, data := outs, cap := freshCap }

/-- Model of `MapIter<T, U>` (src/vec.rs): the number of completed writes,
the input segment, and — modelling the memory of the shared buffer
reinterpreted as `U` — the list of output values written in
`[start, start + init_len)`. -/
structure MapIter (α β : Type) where
  init_len : Nat
  data : Input α
  written : List β
deriving DecidableEq, Repr

/-- The `while` loop of `MapIter::try_into_vec` (src/vec.rs): while
`init_len < data.len`, read the cursor, apply `f`; on success write the
output in place, advance the cursor and increment `init_len`; on error
return with the state as it is (`r#try!` early-returns before the cursor
is advanced).  The second component accumulates the arguments `f` is
invoked on. -/
def MapIter.loop [Inhabited α] (f : α → Except ε β) (s : MapIter α β)
    (calls : List α) :
    (MapIter α β × List α) ⊕ (ε × MapIter α β × List α) :=
  if h : s.init_len < s.data.len then
    let x := s.data.rest.headD default
    match f x with
    | .error e => .inr (e, s, calls ++ [x])
    | .ok v =>
      MapIter.loop f
        { s with data := s.data.advance 1, written := s.written ++ [v],
                 init_len := s.init_len + 1 }
        (calls ++ [x])
  else
    .inl (s, calls)
  termination_by s.data.len - s.init_len
  decreasing_by simp [Input.advance]; omega

/-- Model of `Drop for MapIter` (src/vec.rs): drop the `init_len` outputs
written at `start` (`Vec::from_raw_parts(start, init_len, cap)` is
dropped), and drop the unread inputs starting one past the cursor
(`drop_in_place(ptr.add(1), len - init_len - 1)`: the element of the
in-flight row was already moved into `f`).  Returns (dropped outputs,
dropped inputs). -/
def MapIter.dropGuard (s : MapIter α β) : List β × List α :=
  (s.written.take s.init_len,
   (s.data.rest.drop 1).take (s.data.len - s.init_len - 1))

/-- The observable outcome of a `try_map` call: the returned `Result`, the
arguments the transform was invoked on (in order), and the input/output
elements dropped by the library. -/
structure MapRun (α β ε : Type) where
  result : Except ε (Vec β)
  calls : List α
  droppedIn : List α
  droppedOut : List β

/-- Model of `VecExt::try_map` (src/vec.rs).  `layoutT`/`layoutU` stand
for `Layout::new::<T>()`/`Layout::new::<U>()`.  If the layouts match, the
in-place `MapIter` engine runs (on success `ManuallyDrop` suppresses the
guard and the input allocation is returned with the original length and
capacity; on error the guard runs).  Otherwise the iterator fallback
`into_iter().map(f).map(into_result).collect()` runs, consuming the input
lazily. -/
def try_map [Inhabited α] (layoutT layoutU : Layout) (freshAlloc freshCap : Nat)
    (v : Vec α) (f : α → Except ε β) : MapRun α β ε :=
  if layoutT = layoutU then
    match MapIter.loop f { init_len := 0, data := Input.fromVec v, written := [] } [] with
    | .inl (s, calls) =>
      { result := .ok { alloc := s.data.start, data := s.written.take s.data.len,
                        cap := s.data.cap },
        calls := calls, droppedIn := [], droppedOut := [] }
    | .inr (e, s, calls) =>
      { result := .error e, calls := calls,
        droppedIn := (s.dropGuard).2, droppedOut := (s.dropGuard).1 }
  else
    { result := (collectResults f v.data).map (collectVec layoutU freshAlloc freshCap),
      calls := callsOf f v.data,
      droppedIn := v.data.drop (callsOf f v.data).length,
      droppedOut :=
        match collectResults f v.data with
        | .ok _ => []
        | .error _ => okPrefix f v.data }

/-- Model of `VecExt::map` (src/vec.rs): `try_map` with an infallible
transform (`R = Result<U, Infallible>`). -/
def VecExt.map [Inhabited α] (layoutT layoutU : Layout)
    (freshAlloc freshCap : Nat) (v : Vec α) (f : α → β) : MapRun α β Empty :=
  try_map layoutT layoutU freshAlloc freshCap v (fun x => .ok (f x))

/-- Model of `VecExt::drop_and_reuse::<U>` (src/vec.rs): `self.clear()`
drops all elements (keeping the allocation and capacity), then `map` runs
over the now-empty vector with a transform that is never invoked (the
source closure is `|_| unreachable_unchecked()`, modelled by a default
value).  Returns (elements dropped, resulting vector). -/
def drop_and_reuse [Inhabited α] [Inhabited β] (layoutT layoutU : Layout)
    (freshAlloc freshCap : Nat) (v : Vec α) : List α × Vec β :=
  let m := VecExt.map layoutT layoutU freshAlloc freshCap
    { v with data := [] } (fun _ => (default : β))
  (v.data ++ m.droppedIn,
   match m.result with
   | .ok out => out
   | .error e => e.elim)

/-- Model of the two-input `ZipWithIter<T, U, V>` (src/vec.rs): the `left`
input doubles as the output buffer, `written` models the memory at
`left.start` reinterpreted as `V` (the completed output writes),
`init_len` is the initial minimum length and `min_len` the rows still to
process. -/
structure ZipWithIter (α γ β : Type) where
  left : Input α
  right : Input γ
  written : List β
  init_len : Nat
  min_len : Nat
deriving DecidableEq, Repr

/-- The `while let Some(min_len) = self.min_len.checked_sub(1)` loop of
`ZipWithIter::try_into_vec` (src/vec.rs): decrement `min_len`, read both
cursors, advance both cursors, then apply `f`; on success write the output
into the left buffer; on error `r#try!` early-returns with the state as it
is (cursors advanced, output not written). -/
def ZipWithIter.loop [Inhabited α] [Inhabited γ] (f : α → γ → Except ε β)
    (s : ZipWithIter α γ β) (calls : List (α × γ)) :
    (ZipWithIter α γ β × List (α × γ)) ⊕ (ε × ZipWithIter α γ β × List (α × γ)) :=
  match hm : s.min_len with
  | 0 => .inl (s, calls)
  | m + 1 =>
    let x := s.left.rest.headD default
    let y := s.right.rest.headD default
    let s' : ZipWithIter α γ β :=
      { s with min_len := m, left := s.left.advance 1, right := s.right.advance 1 }
    match f x y with
    | .error e => .inr (e, s', calls ++ [(x, y)])
    | .ok v =>
      ZipWithIter.loop f { s' with written := s'.written ++ [v] } (calls ++ [(x, y)])
  termination_by s.min_len
  decreasing_by simp [hm]

/-- Model of `Drop for ZipWithIter` (src/vec.rs): with
`len = init_len - min_len` it drops the first `len - 1` outputs at
`left.start` (`from_raw_parts(left.start as *mut V, len - 1, _)`), the
unread left elements `drop_in_place(left.ptr, left.len - len)` and the
unread right elements, then frees both allocations.  Returns (dropped
outputs, dropped left inputs, dropped right inputs). -/
def ZipWithIter.dropGuard (s : ZipWithIter α γ β) :
    List β × List α × List γ :=
  let len := s.init_len - s.min_len
  (s.written.take (len - 1),
   s.left.rest.take (s.left.len - len),
   s.right.rest.take (s.right.len - len))

/-- The observable outcome of a `try_zip_with` call: the returned
`Result`, the argument pairs the transform was invoked on (in order), and
the elements dropped by the library (outputs, elements of `self`,
elements of `other`). -/
structure ZipRun (α γ β ε : Type) where
  result : Except ε (Vec β)
  calls : List (α × γ)
  droppedOut : List β
  droppedLeft : List α
  droppedRight : List γ

/-- The body shared by the two in-place orientations of
`VecExt::try_zip_with` (src/vec.rs): build the `ZipWithIter` with
`init_len = min_len = v1.len().min(v2.len())`, run the loop; on success
(`ManuallyDrop`) hand back the left allocation as a `Vec` of length
`init_len` and drop the unread tails of both inputs; on error run the
drop guard. -/
def zipEngineRun [Inhabited α] [Inhabited γ] (v1 : Vec α) (v2 : Vec γ)
    (f : α → γ → Except ε β) : ZipRun α γ β ε :=
  let len := min v1.data.length v2.data.length
  match ZipWithIter.loop f
      { left := Input.fromVec v1, right := Input.fromVec v2,
        written := [], init_len := len, min_len := len } [] with
  | .inl (s, calls) =>
    { result := .ok { alloc := s.left.start, data := s.written.take s.init_len,
                      cap := s.left.cap },
      calls := calls,
      droppedOut := [],
      droppedLeft := s.left.rest.take (s.left.len - s.init_len),
      droppedRight := s.right.rest.take (s.right.len - s.init_len) }
  | .inr (e, s, calls) =>
    { result := .error e, calls := calls,
      droppedOut := (s.dropGuard).1,
      droppedLeft := (s.dropGuard).2.1,
      droppedRight := (s.dropGuard).2.2 }

/-- Model of `VecExt::try_zip_with` (src/vec.rs).  The match mirrors the
source: on `(true, true, true) | (true, false, _)` the engine runs with
`self` as the reused left buffer; on `(true, true, false) | (false, true, _)`
with `other` as the left buffer and the transform's arguments swapped; on
`(false, false, _)` the iterator fallback
`self.into_iter().zip(other).map(f).map(into_result).collect()` runs. -/
def try_zip_with [Inhabited α] [Inhabited γ]
    (layoutT layoutU layoutV : Layout) (freshAlloc freshCap : Nat)
    (v1 : Vec α) (v2 : Vec γ) (f : α → γ → Except ε β) : ZipRun α γ β ε :=
  match layoutT == layoutV, layoutU == layoutV, decide (v2.cap ≤ v1.cap) with
  | true, true, true | true, false, _ =>
    zipEngineRun v1 v2 f
  | true, true, false | false, true, _ =>
    let r := zipEngineRun v2 v1 (fun y x => f x y)
    { result := r.result,
      calls := r.calls.map (fun p => (p.2, p.1)),
      droppedOut := r.droppedOut,
      droppedLeft := r.droppedRight,
      droppedRight := r.droppedLeft }
  | false, false, _ =>
    let rows := v1.data.zip v2.data
    let g : α × γ → Except ε β := fun r => f r.1 r.2
    { result := (collectResults g rows).map (collectVec layoutV freshAlloc freshCap),
      calls := callsOf g rows,
      droppedOut :=
        match collectResults g rows with
        | .ok _ => []
        | .error _ => okPrefix g rows,
      droppedLeft := v1.data.drop (callsOf g rows).length,
      droppedRight := v2.data.drop (callsOf g rows).length }

/-! ### Model of the variadic engine (`src/vec/general_zip.rs`) -/

/-- `TupleElem::try_pick` for `Vec<A>` (src/vec/general_zip.rs): when
`Layout::new::<A>() == Layout::new::<V>()`, tentatively create an output
segment over the same allocation (`Output::new(start as *mut V, cap)`),
without committing. -/
def Input.try_pick (layoutA layoutV : Layout) (d : Input α) : Option (Output β) :=
  if layoutA = layoutV then some ⟨d.start, [], d.cap⟩ else none

/-- `TupleElem::do_pick` for `Vec<A>`: commit to the data segment by
clearing `drop_alloc`. -/
def Input.do_pick (d : Input α) : Input α :=
  { d with drop_alloc := false }

/-- `TupleElem::drop_rest` for `Vec<A>`: the elements dropped by
`drop_in_place(slice::from_raw_parts_mut(ptr, data.len - len))`. -/
def Input.drop_rest (d : Input α) (len : Nat) : List α :=
  d.rest.take (d.len - len)

namespace GeneralZip

/-- Description of a cons list of `Vec` inputs for the variadic engine:
the `Tuple` trait of src/vec/general_zip.rs instantiated at its only leaf
`TupleElem` impl, `Vec<A>`.  Each node records the element type, a default
value for it (used only where the Rust code would have undefined
behaviour), and the element layout `Layout::new::<A>()` (type-level in
Rust, value-level here). -/
inductive Tup : Type 1 where
  | base (α : Type) (inst : Inhabited α) (layout : Layout)
  | cons (α : Type) (inst : Inhabited α) (layout : Layout) (rest : Tup)

/-- `Tuple::Item`: one row of input elements, as nested pairs. -/
def Tup.Item : Tup → Type
  | .base α _ _ => α
  | .cons α _ _ t => α × t.Item

/-- The tuple of input vectors itself: `(Vec<A>,)` or `(Vec<A>, T)`. -/
def Tup.Vecs : Tup → Type
  | .base α _ _ => Vec α
  | .cons α _ _ t => Vec α × t.Vecs

/-- `Tuple::Data`: the cons of input segments. -/
def Tup.Data : Tup → Type
  | .base α _ _ => Input α
  | .cons α _ _ t => Input α × t.Data

/-- One dropped-elements list per input. -/
def Tup.Dropped : Tup → Type
  | .base α _ _ => List α
  | .cons α _ _ t => List α × t.Dropped

def Tup.defaultItem : (t : Tup) → t.Item
  | .base _ i _ => i.default
  | .cons _ i _ t => (i.default, t.defaultItem)

instance (t : Tup) : Inhabited t.Item := ⟨t.defaultItem⟩

/-- `Tuple::min_len`: `self.0.len().min(self.1.min_len())`. -/
def Tup.min_len : (t : Tup) → t.Vecs → Nat
  | .base _ _ _, v => v.data.length
  | .cons _ _ _ t, vs => min vs.1.data.length (t.min_len vs.2)

/-- `Tuple::check_pick::<V>`: for the `Vec<A>` leaf
`Layout::new::<A>() == Layout::new::<V>()`, for a cons the disjunction. -/
def Tup.check_pick : Tup → Layout → Bool
  | .base _ _ lay, lv => lay == lv
  | .cons _ _ lay t, lv => lay == lv || t.check_pick lv

/-- `Tuple::into_data`. -/
def Tup.into_data : (t : Tup) → t.Vecs → t.Data
  | .base _ _ _, v => Input.fromVec v
  | .cons _ _ _ t, vs => (Input.fromVec vs.1, t.into_data vs.2)

/-- `Tuple::next`: one element from every constituent input, in cons
order. -/
def Tup.next : (t : Tup) → t.Data → t.Item × t.Data
  | .base _ i _, d => letI := i; Input.next d
  | .cons _ i _ t, d =>
    letI := i
    let x := Input.next d.1
    let y := t.next d.2
    ((x.1, y.1), (x.2, y.2))

/-- `Tuple::drop_rest`: drop the tail of every constituent input with the
same `len` (the `defer!` discipline makes every tail-drop run; only the
dropped elements are recorded here). -/
def Tup.drop_rest : (t : Tup) → t.Data → Nat → t.Dropped
  | .base _ _ _, d, len => Input.drop_rest d len
  | .cons _ _ _ t, d, len => (Input.drop_rest d.1 len, t.drop_rest d.2 len)

/-- `Tuple::into_iter` flattened to the list of rows it yields:
the leaf yields the vector's elements, a cons zips. -/
def Tup.toRows : (t : Tup) → t.Vecs → List t.Item
  | .base _ _ _, v => v.data
  | .cons _ _ _ t, vs => vs.1.data.zip (t.toRows vs.2)

/-- Model of `OutputData<V>` (src/vec/general_zip.rs): the tentative
output segment plus the erased commit action (the `pick` function pointer
and `ptr` pair of the source, modelled as a function on the whole data
tuple that performs `do_pick` on the chosen input). -/
structure OutputDataM (β : Type) (D : Type) where
  output : Output β
  commit : D → D

/-- `Tuple::pick_impl` (src/vec/general_zip.rs).  For the cons case the
tail is picked first; if the head also matches, the head is kept unless
its capacity is STRICTLY smaller than the tail's best
(`if output.cap < rest_output.output.cap { return Some(rest_output) }`). -/
def Tup.pick_impl (lv : Layout) : (t : Tup) → t.Data → Option (OutputDataM β t.Data)
  | .base _ _ lay, d =>
    (Input.try_pick lay lv d).map fun o => ⟨o, Input.do_pick⟩
  | .cons _ _ lay t, d =>
    let rest_pick := (Tup.pick_impl lv t d.2).map
      fun od => (⟨od.output, fun p => (p.1, od.commit p.2)⟩ : OutputDataM β _)
    match Input.try_pick lay lv d.1 with
    | none => rest_pick
    | some output =>
      match rest_pick with
      | some rest_output =>
        if output.cap < rest_output.output.cap then some rest_output
        else some ⟨output, fun p => (Input.do_pick p.1, p.2)⟩
      | none => some ⟨output, fun p => (Input.do_pick p.1, p.2)⟩

/-- `Tuple::pick`: `try_pick` then `do_pick` for the one-element tuple,
`pick_impl` then running the recorded commit for a cons. -/
def Tup.pick (lv : Layout) : (t : Tup) → t.Data → Option (Output β × t.Data)
  | .base _ _ lay, d =>
    (Input.try_pick lay lv d).map fun o => (o, Input.do_pick d)
  | .cons a i lay t, d =>
    (Tup.pick_impl lv (.cons a i lay t) d).map fun od => (od.output, od.commit d)

/-- Model of the variadic `ZipWithIter<V, In>` (src/vec/general_zip.rs). -/
structure ZipWithIter (β : Type) (t : Tup) where
  out : Output β
  input : t.Data
  init_len : Nat
  min_len : Nat
  should_free : Bool

/-- The `while let Some(min_len) = self.min_len.checked_sub(1)` loop of
`ZipWithIter::try_into_vec` (src/vec/general_zip.rs): decrement
`min_len`, pull one row with `In::next`, apply `f`; on success write into
the output and advance its cursor; on error `?` early-returns with the
state as it is. -/
def ZipWithIter.loop {t : Tup} (f : t.Item → Except ε β) (s : ZipWithIter β t)
    (calls : List t.Item) :
    (ZipWithIter β t × List t.Item) ⊕ (ε × ZipWithIter β t × List t.Item) :=
  match hm : s.min_len with
  | 0 => .inl (s, calls)
  | m + 1 =>
    let x := t.next s.input
    let s' : ZipWithIter β t := { s with min_len := m, input := x.2 }
    match f x.1 with
    | .error e => .inr (e, s', calls ++ [x.1])
    | .ok v =>
      ZipWithIter.loop f
        { s' with out := { s'.out with written := s'.out.written ++ [v] } }
        (calls ++ [x.1])
  termination_by s.min_len
  decreasing_by simp [hm]

/-- Model of `Drop for ZipWithIter` (src/vec/general_zip.rs): with
`len = init_len - min_len`, if `should_free` the guard drops the first
`len - 1` written outputs (`Vec::from_raw_parts(out.start, len - 1,
out.cap)`), and in every case runs `In::drop_rest(input, len)`. -/
def ZipWithIter.dropGuard {t : Tup} (s : ZipWithIter β t) : List β × t.Dropped :=
  let len := s.init_len - s.min_len
  (if s.should_free then s.out.written.take (len - 1) else [],
   t.drop_rest s.input len)

/-- The observable outcome of the variadic `try_zip_with`: the
allocation-reuse path with its drop trace, the iterator fallback path, or
(modelling the `std::hint::unreachable_unchecked()` branch) undefined
behaviour. -/
inductive Outcome (β ε : Type) (t : Tup) where
  | reuse (result : Except ε (Vec β)) (calls : List t.Item)
      (droppedOut : List β) (droppedIn : t.Dropped)
  | fallback (result : Except ε (List β)) (calls : List t.Item)
  | ub

/-- Model of the variadic `try_zip_with` (src/vec/general_zip.rs): if
`check_pick::<R::Ok>()` holds, pick an output from the inputs
(`unreachable_unchecked` if `pick` declines) and run the engine with
`init_len = min_len = input.min_len()` and `should_free = true`; on clean
exit clear `should_free`, build the result vector from the output segment
and run the engine's `Drop` (which drops the unread input tails); on an
early error run the `Drop` guard.  Otherwise stream
`into_iter().map(f).map(into_result).collect()`. -/
def try_zip_with (t : Tup) (lv : Layout) (f : t.Item → Except ε β)
    (vs : t.Vecs) : Outcome β ε t :=
  if t.check_pick lv then
    let len := t.min_len vs
    let input := t.into_data vs
    match Tup.pick lv t input with
    | some od =>
      match ZipWithIter.loop f ⟨od.1, od.2, len, len, true⟩ [] with
      | .inl (sd, calls) =>
        let sd' := { sd with should_free := false }
        .reuse (.ok ⟨sd'.out.start, sd'.out.written.take sd'.init_len, sd'.out.cap⟩)
          calls (sd'.dropGuard).1 (sd'.dropGuard).2
      | .inr (e, sf, calls) =>
        .reuse (.error e) calls (sf.dropGuard).1 (sf.dropGuard).2
    | none => .ub
  else
    .fallback (collectResults f (t.toRows vs)) (callsOf f (t.toRows vs))

/-- The first `n` rows `In::next` would yield from a data tuple. -/
def Tup.peekRows (t : Tup) : t.Data → Nat → List t.Item
  | _, 0 => []
  | d, n + 1 => (t.next d).1 :: t.peekRows (t.next d).2 n

/-- The data tuple after `n` calls of `In::next`. -/
def Tup.advanceData (t : Tup) : t.Data → Nat → t.Data
  | d, 0 => d
  | d, n + 1 => t.advanceData (t.next d).2 n

/-- The statement that a data tuple is, componentwise, the input tuple
`vs` with every cursor advanced `m` elements (the `drop_alloc` bits are
unconstrained). -/
def Tup.DataFrom : (t : Tup) → t.Vecs → Nat → t.Data → Prop
  | .base _ _ _, v, m, d =>
    d.start = v.alloc ∧ d.rest = v.data.drop m ∧ d.len = v.data.length ∧
      d.cap = v.cap
  | .cons _ _ _ t, vs, m, d =>
    (d.1.start = vs.1.alloc ∧ d.1.rest = vs.1.data.drop m ∧
      d.1.len = vs.1.data.length ∧ d.1.cap = vs.1.cap) ∧ t.DataFrom vs.2 m d.2

/-- The statement that a dropped-elements tuple consists, for every
input, of exactly that input's elements from position `m` to its end. -/
def Tup.DropSpec : (t : Tup) → t.Vecs → Nat → t.Dropped → Prop
  | .base _ _ _, v, m, dr => dr = v.data.drop m
  | .cons _ _ _ t, vs, m, dr => dr.1 = vs.1.data.drop m ∧ t.DropSpec vs.2 m dr.2

/-- The `(start, cap)` pairs of the inputs whose element layout matches
the target layout, in cons order. -/
def Tup.dataMatchingPairs : (t : Tup) → Layout → t.Data → List (Nat × Nat)
  | .base _ _ lay, lv, d => if lay = lv then [(d.start, d.cap)] else []
  | .cons _ _ lay t, lv, d =>
    (if lay = lv then [(d.1.start, d.1.cap)] else []) ++ t.dataMatchingPairs lv d.2

/-- The first pair attaining the maximum capacity in a list of
`(start, cap)` pairs — a later pair replaces an earlier one only when its
capacity is strictly greater. -/
def firstMaxPair : List (Nat × Nat) → Option (Nat × Nat)
  | [] => none
  | p :: ps =>
    match firstMaxPair ps with
    | none => some p
    | some q => if p.2 < q.2 then some q else some p

end GeneralZip

/-! ## Theorems -/

@[simp]
theorem Input.advance_zero (i : Input α) : i.advance 0 = i := by
  simp [Input.advance]

theorem Input.advance_advance (i : Input α) (m n : Nat) :
    (i.advance m).advance n = i.advance (m + n) := by
  simp [Input.advance, List.drop_drop, Nat.add_assoc, Nat.add_comm m n]

@[simp]
theorem Input.advance_start (i : Input α) (n : Nat) : (i.advance n).start = i.start := rfl

@[simp]
theorem Input.advance_rest (i : Input α) (n : Nat) :
    (i.advance n).rest = i.rest.drop n := rfl

@[simp]
theorem Input.advance_pos (i : Input α) (n : Nat) : (i.advance n).pos = i.pos + n := rfl

@[simp]
theorem Input.advance_len (i : Input α) (n : Nat) : (i.advance n).len = i.len := rfl

@[simp]
theorem Input.advance_cap (i : Input α) (n : Nat) : (i.advance n).cap = i.cap := rfl

@[simp]
theorem Input.advance_drop_alloc (i : Input α) (n : Nat) :
    (i.advance n).drop_alloc = i.drop_alloc := rfl

theorem runSeq_inl_length {g : ρ → Except ε β} {rows : List ρ} {outs : List β}
    (h : runSeq g rows = .inl outs) : outs.length = rows.length := by
  induction rows generalizing outs with
  | nil => simp [runSeq] at h; simp [← h]
  | cons r rs ih =>
    simp only [runSeq] at h
    cases hg : g r with
    | error e => simp [hg] at h
    | ok v =>
      simp only [hg] at h
      cases hr : runSeq g rs with
      | inl outs' =>
        simp [hr] at h
        simp [← h, ih hr]
      | inr p => simp [hr] at h

theorem runSeq_inl_get {g : ρ → Except ε β} {rows : List ρ} {outs : List β}
    (h : runSeq g rows = .inl outs) (d : ρ) (d' : β) :
    ∀ i, i < rows.length → g (rows.getD i d) = .ok (outs.getD i d') := by
  induction rows generalizing outs with
  | nil => intro i hi; simp at hi
  | cons r rs ih =>
    simp only [runSeq] at h
    cases hg : g r with
    | error e => simp [hg] at h
    | ok v =>
      simp only [hg] at h
      cases hr : runSeq g rs with
      | inl outs' =>
        simp [hr] at h
        intro i hi
        subst h
        match i with
        | 0 => simpa using hg
        | j + 1 =>
          simp only [List.getD_cons_succ]
          exact ih hr j (by simpa using hi)
      | inr p => simp [hr] at h

theorem runSeq_inr {g : ρ → Except ε β} {rows : List ρ} {k : Nat} {e : ε}
    {outs : List β} (h : runSeq g rows = .inr (k, e, outs)) (d : ρ) (d' : β) :
    k < rows.length ∧ outs.length = k ∧ g (rows.getD k d) = .error e ∧
      ∀ i, i < k → g (rows.getD i d) = .ok (outs.getD i d') := by
  induction rows generalizing k outs with
  | nil => simp [runSeq] at h
  | cons r rs ih =>
    simp only [runSeq] at h
    cases hg : g r with
    | error e' =>
      simp [hg] at h
      obtain ⟨hk, he, ho⟩ := h
      subst hk; subst he; subst ho
      exact ⟨by simp, rfl, by simpa using hg, by intro i hi; omega⟩
    | ok v =>
      simp only [hg] at h
      cases hr : runSeq g rs with
      | inl outs' => simp [hr] at h
      | inr p =>
        obtain ⟨k', e', outs'⟩ := p
        simp [hr] at h
        obtain ⟨hk, he, ho⟩ := h
        obtain ⟨h1, h2, h3, h4⟩ := ih (hr.trans (by rw [he]))
        refine ⟨by simp; omega, ?_, ?_, ?_⟩
        · subst ho; simp; omega
        · subst hk; simpa using h3
        · intro i hi
          subst hk; subst ho
          match i with
          | 0 => simpa using hg
          | j + 1 =>
            simp only [List.getD_cons_succ]
            exact h4 j (by omega)

theorem runSeq_inr_length {g : ρ → Except ε β} {rows : List ρ} {k : Nat} {e : ε}
    {outs : List β} (h : runSeq g rows = .inr (k, e, outs)) :
    k < rows.length ∧ outs.length = k := by
  induction rows generalizing k outs with
  | nil => simp [runSeq] at h
  | cons r rs ih =>
    simp only [runSeq] at h
    cases hg : g r with
    | error e' =>
      simp [hg] at h
      obtain ⟨hk, _, ho⟩ := h
      subst hk; subst ho
      simp
    | ok v =>
      simp only [hg] at h
      cases hr : runSeq g rs with
      | inl outs' => simp [hr] at h
      | inr p =>
        obtain ⟨k', e', outs'⟩ := p
        simp [hr] at h
        obtain ⟨hk, he, ho⟩ := h
        obtain ⟨h1, h2⟩ := ih (hr.trans (by rw [he]))
        subst hk; subst ho
        constructor
        · simp; omega
        · simp; omega

theorem runSeq_eq_inr_of {g : ρ → Except ε β} {rows : List ρ} {k : Nat} {e : ε}
    (d : ρ) (hk : k < rows.length) (he : g (rows.getD k d) = .error e)
    (hok : ∀ i, i < k → ∃ v, g (rows.getD i d) = .ok v) :
    ∃ outs, runSeq g rows = .inr (k, e, outs) := by
  induction rows generalizing k with
  | nil => simp at hk
  | cons r rs ih =>
    match k with
    | 0 =>
      simp only [List.getD_cons_zero] at he
      exact ⟨[], by simp [runSeq, he]⟩
    | j + 1 =>
      obtain ⟨v, hv⟩ := hok 0 (by omega)
      simp only [List.getD_cons_zero] at hv
      obtain ⟨outs, houts⟩ := ih (by simpa using hk) (by simpa using he)
        (fun i hi => by
          obtain ⟨w, hw⟩ := hok (i + 1) (by omega)
          exact ⟨w, by simpa using hw⟩)
      exact ⟨v :: outs, by simp [runSeq, hv, houts]⟩

theorem collectResults_of_inl {g : ρ → Except ε β} {rows : List ρ}
    {outs : List β} (h : runSeq g rows = .inl outs) :
    collectResults g rows = .ok outs := by
  induction rows generalizing outs with
  | nil => simp [runSeq] at h; simp [collectResults, ← h]
  | cons r rs ih =>
    simp only [runSeq] at h
    cases hg : g r with
    | error e => simp [hg] at h
    | ok v =>
      simp only [hg] at h
      cases hr : runSeq g rs with
      | inl outs' =>
        simp [hr] at h
        simp [collectResults, hg, ih hr, ← h, Except.map]
      | inr p => simp [hr] at h

theorem collectResults_of_inr {g : ρ → Except ε β} {rows : List ρ} {k : Nat}
    {e : ε} {outs : List β} (h : runSeq g rows = .inr (k, e, outs)) :
    collectResults g rows = .error e := by
  induction rows generalizing k outs with
  | nil => simp [runSeq] at h
  | cons r rs ih =>
    simp only [runSeq] at h
    cases hg : g r with
    | error e' =>
      simp [hg] at h
      simp [collectResults, hg, h.2.1]
    | ok v =>
      simp only [hg] at h
      cases hr : runSeq g rs with
      | inl outs' => simp [hr] at h
      | inr p =>
        obtain ⟨k', e', outs'⟩ := p
        simp [hr] at h
        obtain ⟨hk, he, ho⟩ := h
        simp [collectResults, hg, ih (hr.trans (by rw [he])), Except.map]

theorem callsOf_of_inl {g : ρ → Except ε β} {rows : List ρ} {outs : List β}
    (h : runSeq g rows = .inl outs) : callsOf g rows = rows := by
  induction rows generalizing outs with
  | nil => simp [callsOf]
  | cons r rs ih =>
    simp only [runSeq] at h
    cases hg : g r with
    | error e => simp [hg] at h
    | ok v =>
      simp only [hg] at h
      cases hr : runSeq g rs with
      | inl outs' => simp [callsOf, hg, ih hr]
      | inr p => simp [hr] at h

theorem callsOf_of_inr {g : ρ → Except ε β} {rows : List ρ} {k : Nat} {e : ε}
    {outs : List β} (h : runSeq g rows = .inr (k, e, outs)) :
    callsOf g rows = rows.take (k + 1) := by
  induction rows generalizing k outs with
  | nil => simp [runSeq] at h
  | cons r rs ih =>
    simp only [runSeq] at h
    cases hg : g r with
    | error e' =>
      simp [hg] at h
      simp [callsOf, hg, h.1, ← h.2.1]
    | ok v =>
      simp only [hg] at h
      cases hr : runSeq g rs with
      | inl outs' => simp [hr] at h
      | inr p =>
        obtain ⟨k', e', outs'⟩ := p
        simp [hr] at h
        obtain ⟨hk, he, ho⟩ := h
        subst hk
        simp [callsOf, hg, ih (hr.trans (by rw [he]))]

theorem runSeq_map {g : σ → Except ε β} (h : ρ → σ) (rows : List ρ) :
    runSeq g (rows.map h) = runSeq (fun r => g (h r)) rows := by
  induction rows with
  | nil => simp [runSeq]
  | cons r rs ih => simp only [List.map_cons, runSeq, ih]

/-- C8: `UninitBox::init::<T>(value)` panics if and only if
`Layout::new::<T>()` differs from the box's recorded `layout()`; when the
layouts are equal it returns a `Box<T>` containing exactly the given
value, placed in the box's existing allocation. -/
theorem init_layout_mismatch_iff (b : UninitBox) (layoutT : Layout) (value : α) :
    (UninitBox.init b layoutT value = none ↔ b.layout ≠ layoutT) ∧
      (b.layout = layoutT →
        UninitBox.init b layoutT value = some { ptr := b.ptr, value := value }) := by
  constructor
  · constructor
    · intro h heq
      simp [UninitBox.init, heq] at h
    · intro hne
      simp [UninitBox.init, hne]
  · intro heq
    simp [UninitBox.init, heq]

/-- Witness for C8 at a concrete box and layout. -/
theorem init_layout_mismatch_iff_witness :
    ({ ptr := 1, layout := ⟨4, 4⟩ } : UninitBox).layout = ⟨4, 4⟩ ∧
      UninitBox.init { ptr := 1, layout := ⟨4, 4⟩ } ⟨4, 4⟩ (37 : Nat) =
        some { ptr := 1, value := 37 } :=
  ⟨by decide, (init_layout_mismatch_iff { ptr := 1, layout := ⟨4, 4⟩ } ⟨4, 4⟩ 37).2 rfl⟩

/-- C10: initializing a fresh `UninitBox::new::<T>()` with a value `v` and
then applying `BoxExt::take_box` returns exactly `v` together with an
`UninitBox` whose recorded layout is `Layout::new::<T>()`: the round trip
preserves the value and the layout. -/
theorem init_take_box_roundtrip (alloc : Layout → Nat) (layoutT : Layout)
    (v : α) (ub : UninitBox) (h : UninitBox.new alloc layoutT = some ub) :
    ∃ b : MBox α, ub.init layoutT v = some b ∧
      take_box layoutT b = ({ ptr := b.ptr, layout := layoutT }, v) := by
  have hlay : ub.layout = layoutT := by
    unfold UninitBox.new UninitBox.from_layout at h
    split at h
    · simp at h; simp [← h]
    · split at h
      · simp at h
      · simp at h; simp [← h]
  exact ⟨{ ptr := ub.ptr, value := v }, by simp [UninitBox.init, hlay], rfl⟩

/-- Witness for C10 with a concrete allocator, layout and value. -/
theorem init_take_box_roundtrip_witness :
    UninitBox.new (fun _ => 1) ⟨4, 4⟩ = some { ptr := 1, layout := ⟨4, 4⟩ } ∧
      ∃ b : MBox Nat,
        UninitBox.init { ptr := 1, layout := ⟨4, 4⟩ } ⟨4, 4⟩ 5 = some b ∧
          take_box ⟨4, 4⟩ b = ({ ptr := b.ptr, layout := ⟨4, 4⟩ }, 5) :=
  ⟨by decide,
    init_take_box_roundtrip (fun _ => 1) ⟨4, 4⟩ 5 { ptr := 1, layout := ⟨4, 4⟩ }
      (by decide)⟩

theorem MapIter.loop_done [Inhabited α] (f : α → Except ε β) (s : MapIter α β)
    (calls : List α) (h : ¬ s.init_len < s.data.len) :
    MapIter.loop f s calls = .inl (s, calls) := by
  rw [MapIter.loop.eq_def, dif_neg h]

theorem MapIter.loop_step [Inhabited α] (f : α → Except ε β) (s : MapIter α β)
    (calls : List α) (h : s.init_len < s.data.len) :
    MapIter.loop f s calls =
      match f (s.data.rest.headD default) with
      | .error e => .inr (e, s, calls ++ [s.data.rest.headD default])
      | .ok v =>
        MapIter.loop f
          { s with data := s.data.advance 1, written := s.written ++ [v],
                   init_len := s.init_len + 1 }
          (calls ++ [s.data.rest.headD default]) := by
  rw [MapIter.loop.eq_def, dif_pos h]

theorem MapIter.loop_spec [Inhabited α] (f : α → Except ε β) (il : Nat)
    (d : Input α) (w : List β) (calls : List α)
    (hx : d.len - il ≤ d.rest.length) :
    (∀ outs, runSeq f (d.rest.take (d.len - il)) = Sum.inl outs →
        MapIter.loop f ⟨il, d, w⟩ calls =
          Sum.inl (⟨il + (d.len - il), d.advance (d.len - il), w ++ outs⟩,
            calls ++ d.rest.take (d.len - il))) ∧
      (∀ k e outs, runSeq f (d.rest.take (d.len - il)) = Sum.inr (k, e, outs) →
        MapIter.loop f ⟨il, d, w⟩ calls =
          Sum.inr (e, ⟨il + k, d.advance k, w ++ outs⟩,
            calls ++ (d.rest.take (d.len - il)).take (k + 1))) := by
  obtain ⟨n, hn⟩ : ∃ n, d.len - il = n := ⟨d.len - il, rfl⟩
  induction n generalizing il d w calls with
  | zero =>
    rw [hn]
    constructor
    · intro outs houts
      simp [runSeq] at houts
      rw [MapIter.loop_done f _ _ (by dsimp only; omega)]
      subst houts
      simp [hn]
    · intro k e outs houts
      simp [runSeq] at houts
  | succ m ih =>
    rw [hn]
    have hlt : il < d.len := by omega
    cases hd : d.rest with
    | nil => rw [hd] at hx; simp at hx; omega
    | cons x dt =>
      rw [hd] at hx
      simp at hx
      have hx1 : (d.advance 1).len - (il + 1) ≤ (d.advance 1).rest.length := by
        simp [hd]; omega
      have hn1 : (d.advance 1).len - (il + 1) = m := by simp; omega
      have hrest1 : (d.advance 1).rest = dt := by simp [hd]
      constructor
      · intro outs houts
        rw [List.take_succ_cons] at houts
        simp only [runSeq] at houts
        cases hfx : f x with
        | error e => rw [hfx] at houts; simp at houts
        | ok v =>
          rw [hfx] at houts
          cases hrr : runSeq f (dt.take m) with
          | inr p => rw [hrr] at houts; simp at houts
          | inl outs' =>
            rw [hrr] at houts
            simp at houts
            rw [MapIter.loop_step f _ _ hlt]
            dsimp only
            rw [hd, List.headD_cons, hfx]
            dsimp only
            obtain ⟨ih1, _⟩ := ih (il + 1) (d.advance 1) (w ++ [v])
              (calls ++ [x]) hx1 hn1
            rw [hn1, hrest1] at ih1
            rw [ih1 outs' hrr]
            subst houts
            rw [Input.advance_advance]
            simp [List.take_succ_cons, List.append_assoc, Nat.add_comm,
              Nat.add_left_comm, Nat.add_assoc]
      · intro k e outs houts
        rw [List.take_succ_cons] at houts
        simp only [runSeq] at houts
        cases hfx : f x with
        | error e0 =>
          rw [hfx] at houts
          simp at houts
          obtain ⟨hk, he, ho⟩ := houts
          subst hk; subst he; subst ho
          rw [MapIter.loop_step f _ _ hlt]
          dsimp only
          rw [hd, List.headD_cons, hfx]
          dsimp only
          simp [List.take_succ_cons]
        | ok v =>
          rw [hfx] at houts
          cases hrr : runSeq f (dt.take m) with
          | inl outs' => rw [hrr] at houts; simp at houts
          | inr p =>
            obtain ⟨k', e', outs'⟩ := p
            rw [hrr] at houts
            simp at houts
            obtain ⟨hk, he, ho⟩ := houts
            rw [MapIter.loop_step f _ _ hlt]
            dsimp only
            rw [hd, List.headD_cons, hfx]
            dsimp only
            obtain ⟨_, ih2⟩ := ih (il + 1) (d.advance 1) (w ++ [v])
              (calls ++ [x]) hx1 hn1
            rw [hn1, hrest1] at ih2
            rw [ih2 k' e' outs' hrr]
            subst hk; subst he; subst ho
            rw [Input.advance_advance]
            simp [List.take_succ_cons, List.append_assoc, Nat.add_comm,
              Nat.add_left_comm, Nat.add_assoc]

theorem ZipWithIter.loop_zero [Inhabited α] [Inhabited γ] (f : α → γ → Except ε β)
    (s : ZipWithIter α γ β) (calls : List (α × γ)) (h : s.min_len = 0) :
    ZipWithIter.loop f s calls = .inl (s, calls) := by
  rw [ZipWithIter.loop.eq_def]
  split
  · rfl
  · omega

theorem ZipWithIter.loop_succ [Inhabited α] [Inhabited γ] (f : α → γ → Except ε β)
    (s : ZipWithIter α γ β) (calls : List (α × γ)) (m : Nat) (h : s.min_len = m + 1) :
    ZipWithIter.loop f s calls =
      match f (s.left.rest.headD default) (s.right.rest.headD default) with
      | .error e =>
        .inr (e, { s with min_len := m, left := s.left.advance 1,
                          right := s.right.advance 1 },
              calls ++ [(s.left.rest.headD default, s.right.rest.headD default)])
      | .ok v =>
        ZipWithIter.loop f
          { s with min_len := m, left := s.left.advance 1,
                   right := s.right.advance 1, written := s.written ++ [v] }
          (calls ++ [(s.left.rest.headD default, s.right.rest.headD default)]) := by
  rw [ZipWithIter.loop.eq_def]
  split
  · omega
  · next n hnn =>
    have hnm : n = m := by omega
    subst hnm
    rfl

theorem ZipWithIter.zip_loop_spec [Inhabited α] [Inhabited γ] (f : α → γ → Except ε β)
    (ml : Nat) (l : Input α) (r : Input γ) (w : List β) (il : Nat)
    (calls : List (α × γ))
    (hx : ml ≤ l.rest.length) (hy : ml ≤ r.rest.length) :
    (∀ outs, runSeq (fun p => f p.1 p.2) ((l.rest.take ml).zip (r.rest.take ml)) =
          Sum.inl outs →
        ZipWithIter.loop f ⟨l, r, w, il, ml⟩ calls =
          Sum.inl (⟨l.advance ml, r.advance ml, w ++ outs, il, 0⟩,
            calls ++ (l.rest.take ml).zip (r.rest.take ml))) ∧
      (∀ k e outs,
        runSeq (fun p => f p.1 p.2) ((l.rest.take ml).zip (r.rest.take ml)) =
            Sum.inr (k, e, outs) →
        ZipWithIter.loop f ⟨l, r, w, il, ml⟩ calls =
          Sum.inr (e, ⟨l.advance (k + 1), r.advance (k + 1), w ++ outs, il,
              ml - (k + 1)⟩,
            calls ++ ((l.rest.take ml).zip (r.rest.take ml)).take (k + 1))) := by
  induction ml generalizing l r w calls with
  | zero =>
    constructor
    · intro outs houts
      simp [runSeq] at houts
      rw [ZipWithIter.loop_zero f _ _ rfl]
      subst houts
      simp
    · intro k e outs houts
      simp [runSeq] at houts
  | succ m ih =>
    cases hl : l.rest with
    | nil => rw [hl] at hx; simp at hx
    | cons x lt =>
    cases hr0 : r.rest with
    | nil => rw [hr0] at hy; simp at hy
    | cons y rt =>
      rw [hl] at hx; rw [hr0] at hy
      simp at hx hy
      have hx1 : m ≤ (l.advance 1).rest.length := by simp [hl]; omega
      have hy1 : m ≤ (r.advance 1).rest.length := by simp [hr0]; omega
      have hrest1 : (l.advance 1).rest = lt := by simp [hl]
      have hrest2 : (r.advance 1).rest = rt := by simp [hr0]
      constructor
      · intro outs houts
        rw [List.take_succ_cons, List.take_succ_cons, List.zip_cons_cons]
          at houts
        simp only [runSeq] at houts
        cases hfx : f x y with
        | error e =>
          rw [hfx] at houts
          simp at houts
        | ok v =>
          rw [hfx] at houts
          cases hrr : runSeq (fun (p : α × γ) => f p.1 p.2)
              ((lt.take m).zip (rt.take m)) with
          | inr p => rw [hrr] at houts; simp at houts
          | inl outs' =>
            rw [hrr] at houts
            simp at houts
            rw [ZipWithIter.loop_succ f _ _ m rfl]
            dsimp only
            rw [hl, hr0, List.headD_cons, List.headD_cons, hfx]
            dsimp only
            obtain ⟨ih1, _⟩ := ih (l.advance 1) (r.advance 1) (w ++ [v])
              (calls ++ [(x, y)]) hx1 hy1
            rw [hrest1, hrest2] at ih1
            rw [ih1 outs' hrr]
            subst houts
            rw [Input.advance_advance, Input.advance_advance]
            simp [List.take_succ_cons, List.zip_cons_cons, List.append_assoc,
              Nat.add_comm, Nat.add_left_comm, Nat.add_assoc]
      · intro k e outs houts
        rw [List.take_succ_cons, List.take_succ_cons, List.zip_cons_cons]
          at houts
        simp only [runSeq] at houts
        cases hfx : f x y with
        | error e0 =>
          rw [hfx] at houts
          simp at houts
          obtain ⟨hk, he, ho⟩ := houts
          subst hk; subst he; subst ho
          rw [ZipWithIter.loop_succ f _ _ m rfl]
          dsimp only
          rw [hl, hr0, List.headD_cons, List.headD_cons, hfx]
          dsimp only
          simp [List.take_succ_cons, List.zip_cons_cons]
        | ok v =>
          rw [hfx] at houts
          cases hrr : runSeq (fun (p : α × γ) => f p.1 p.2)
              ((lt.take m).zip (rt.take m)) with
          | inl outs' => rw [hrr] at houts; simp at houts
          | inr p =>
            obtain ⟨k', e', outs'⟩ := p
            rw [hrr] at houts
            simp at houts
            obtain ⟨hk, he, ho⟩ := houts
            rw [ZipWithIter.loop_succ f _ _ m rfl]
            dsimp only
            rw [hl, hr0, List.headD_cons, List.headD_cons, hfx]
            dsimp only
            obtain ⟨_, ih2⟩ := ih (l.advance 1) (r.advance 1) (w ++ [v])
              (calls ++ [(x, y)]) hx1 hy1
            rw [hrest1, hrest2] at ih2
            rw [ih2 k' e' outs' hrr]
            subst hk; subst he; subst ho
            rw [Input.advance_advance, Input.advance_advance]
            simp [List.take_succ_cons, List.zip_cons_cons, List.append_assoc,
              Nat.add_comm, Nat.add_left_comm, Nat.add_assoc]

@[simp]
theorem collectVec_data (lo : Layout) (a c : Nat) (outs : List β) :
    (collectVec lo a c outs).data = outs := by
  unfold collectVec
  split
  · next h => simp [List.isEmpty_iff.mp h]
  · rfl

theorem zip_take_min (xs : List α) (ys : List γ) :
    (xs.take (min xs.length ys.length)).zip (ys.take (min xs.length ys.length)) =
      xs.zip ys := by
  rw [show (xs.take (min xs.length ys.length)).zip
        (ys.take (min xs.length ys.length)) =
      (xs.zip ys).take (min xs.length ys.length) by
    rw [List.zip_eq_zipWith, List.zip_eq_zipWith, List.take_zipWith]]
  rw [List.take_of_length_le]
  simp [List.length_zip]

theorem getD_zip {xs : List α} {ys : List γ} {i : Nat} (h1 : i < xs.length)
    (h2 : i < ys.length) (dx : α) (dy : γ) :
    (xs.zip ys).getD i (dx, dy) = (xs.getD i dx, ys.getD i dy) := by
  have hz : i < (xs.zip ys).length := by simp [List.length_zip]; omega
  rw [List.getD_eq_getElem _ _ hz, List.getD_eq_getElem _ _ h1,
    List.getD_eq_getElem _ _ h2]
  exact List.getElem_zip

/-- What a `try_map` call on the layout-matching (allocation reuse) path
does, as a function of where the transform first fails. -/
theorem try_map_spec [Inhabited α] (layoutT layoutU : Layout) (frA frC : Nat)
    (v : Vec α) (f : α → Except ε β) (h : layoutT = layoutU) :
    (∀ outs, runSeq f v.data = Sum.inl outs →
        try_map layoutT layoutU frA frC v f =
          { result := .ok ⟨v.alloc, outs, v.cap⟩, calls := v.data,
            droppedIn := [], droppedOut := [] }) ∧
      (∀ k e outs, runSeq f v.data = Sum.inr (k, e, outs) →
        try_map layoutT layoutU frA frC v f =
          { result := .error e, calls := v.data.take (k + 1),
            droppedIn := v.data.drop (k + 1), droppedOut := outs }) := by
  have hx : (Input.fromVec v).len - 0 ≤ (Input.fromVec v).rest.length := by
    simp [Input.fromVec]
  obtain ⟨hs, hf⟩ := MapIter.loop_spec f 0 (Input.fromVec v) [] [] hx
  have hrows : (Input.fromVec v).rest.take ((Input.fromVec v).len - 0) = v.data := by
    simp [Input.fromVec]
  rw [hrows] at hs hf
  constructor
  · intro outs houts
    have hlen : outs.length = v.data.length := runSeq_inl_length houts
    unfold try_map
    rw [if_pos h, hs outs houts]
    dsimp only
    simp [Input.fromVec, MapRun.mk.injEq, List.take_of_length_le, hlen]
  · intro k e outs houts
    obtain ⟨hk, hol⟩ := runSeq_inr_length houts
    unfold try_map
    rw [if_pos h, hf k e outs houts]
    dsimp only [MapIter.dropGuard]
    simp [Input.fromVec, MapRun.mk.injEq, List.drop_drop, Nat.add_comm,
      List.take_of_length_le, hol]
    omega

/-- What the in-place two-input zip engine does, as a function of where
the transform first fails on the row sequence `v1.data.zip v2.data`. -/
theorem zipEngineRun_spec [Inhabited α] [Inhabited γ] (v1 : Vec α) (v2 : Vec γ)
    (f : α → γ → Except ε β) :
    (∀ outs, runSeq (fun p => f p.1 p.2) (v1.data.zip v2.data) = Sum.inl outs →
        zipEngineRun v1 v2 f =
          { result := .ok ⟨v1.alloc, outs, v1.cap⟩,
            calls := v1.data.zip v2.data,
            droppedOut := [],
            droppedLeft := v1.data.drop (min v1.data.length v2.data.length),
            droppedRight := v2.data.drop (min v1.data.length v2.data.length) }) ∧
      (∀ k e outs,
        runSeq (fun p => f p.1 p.2) (v1.data.zip v2.data) = Sum.inr (k, e, outs) →
        zipEngineRun v1 v2 f =
          { result := .error e,
            calls := (v1.data.zip v2.data).take (k + 1),
            droppedOut := outs,
            droppedLeft := v1.data.drop (k + 1),
            droppedRight := v2.data.drop (k + 1) }) := by
  have hx : min v1.data.length v2.data.length ≤ (Input.fromVec v1).rest.length := by
    simp [Input.fromVec]
  have hy : min v1.data.length v2.data.length ≤ (Input.fromVec v2).rest.length := by
    simp [Input.fromVec]
  obtain ⟨hs, hf⟩ := ZipWithIter.zip_loop_spec f (min v1.data.length v2.data.length)
    (Input.fromVec v1) (Input.fromVec v2) [] (min v1.data.length v2.data.length)
    [] hx hy
  have hrows : ((Input.fromVec v1).rest.take (min v1.data.length v2.data.length)).zip
      ((Input.fromVec v2).rest.take (min v1.data.length v2.data.length)) =
        v1.data.zip v2.data := by
    simp only [Input.fromVec]
    exact zip_take_min v1.data v2.data
  rw [hrows] at hs hf
  constructor
  · intro outs houts
    have hlen : outs.length = min v1.data.length v2.data.length := by
      rw [runSeq_inl_length houts, List.length_zip]
    unfold zipEngineRun
    dsimp only
    rw [hs outs houts]
    dsimp only [ZipWithIter.dropGuard]
    simp [Input.fromVec, ZipRun.mk.injEq, List.take_of_length_le, hlen,
      List.drop_drop]
  · intro k e outs houts
    obtain ⟨hk, hol⟩ := runSeq_inr_length houts
    have hkl : k < v1.data.length := by
      rw [List.length_zip] at hk
      exact lt_of_lt_of_le hk (min_le_left _ _)
    have hkr : k < v2.data.length := by
      rw [List.length_zip] at hk
      exact lt_of_lt_of_le hk (min_le_right _ _)
    have hle : k + 1 ≤ min v1.data.length v2.data.length := by omega
    unfold zipEngineRun
    dsimp only
    rw [hf k e outs houts]
    dsimp only [ZipWithIter.dropGuard]
    simp only [Input.fromVec, ZipRun.mk.injEq, List.nil_append,
      Input.advance_rest, Input.advance_len]
    have hguard : min v1.data.length v2.data.length -
        (min v1.data.length v2.data.length - (k + 1)) = k + 1 := by omega
    rw [hguard]
    refine ⟨trivial, trivial, ?_, ?_, ?_⟩
    · rw [show k + 1 - 1 = k by omega, List.take_of_length_le (by omega)]
    · rw [List.take_of_length_le (by simp)]
    · rw [List.take_of_length_le (by simp)]

/-- Reduction of `try_zip_with` to the engine in the first (keep `self` as
the left, reused buffer) orientation. -/
theorem try_zip_with_arm1 [Inhabited α] [Inhabited γ]
    (layoutT layoutU layoutV : Layout) (frA frC : Nat)
    (v1 : Vec α) (v2 : Vec γ) (f : α → γ → Except ε β)
    (hTV : layoutT = layoutV) (h2 : layoutU ≠ layoutV ∨ v2.cap ≤ v1.cap) :
    try_zip_with layoutT layoutU layoutV frA frC v1 v2 f =
      zipEngineRun v1 v2 f := by
  unfold try_zip_with
  rcases h2 with h2 | h2
  · rw [show (layoutT == layoutV) = true by simp [hTV],
      show (layoutU == layoutV) = false by simp [h2]]
  · by_cases hUV : layoutU = layoutV
    · rw [show (layoutT == layoutV) = true by simp [hTV],
        show (layoutU == layoutV) = true by simp [hUV],
        show decide (v2.cap ≤ v1.cap) = true by simp [h2]]
    · rw [show (layoutT == layoutV) = true by simp [hTV],
        show (layoutU == layoutV) = false by simp [hUV]]

/-- Reduction of `try_zip_with` to the engine in the swapped (`other` is
the left, reused buffer) orientation. -/
theorem try_zip_with_arm2 [Inhabited α] [Inhabited γ]
    (layoutT layoutU layoutV : Layout) (frA frC : Nat)
    (v1 : Vec α) (v2 : Vec γ) (f : α → γ → Except ε β)
    (hUV : layoutU = layoutV) (h2 : layoutT ≠ layoutV ∨ ¬ v2.cap ≤ v1.cap) :
    try_zip_with layoutT layoutU layoutV frA frC v1 v2 f =
      (let r := zipEngineRun v2 v1 (fun y x => f x y)
       { result := r.result,
         calls := r.calls.map (fun p => (p.2, p.1)),
         droppedOut := r.droppedOut,
         droppedLeft := r.droppedRight,
         droppedRight := r.droppedLeft }) := by
  unfold try_zip_with
  rcases h2 with h2 | h2
  · rw [show (layoutT == layoutV) = false by simp [h2],
      show (layoutU == layoutV) = true by simp [hUV]]
  · by_cases hTV : layoutT = layoutV
    · rw [show (layoutT == layoutV) = true by simp [hTV],
        show (layoutU == layoutV) = true by simp [hUV],
        show decide (v2.cap ≤ v1.cap) = false by simp [h2]]
    · rw [show (layoutT == layoutV) = false by simp [hTV],
        show (layoutU == layoutV) = true by simp [hUV]]

/-- Reduction of `try_zip_with` to the iterator fallback when neither
layout matches the output layout. -/
theorem try_zip_with_arm3 [Inhabited α] [Inhabited γ]
    (layoutT layoutU layoutV : Layout) (frA frC : Nat)
    (v1 : Vec α) (v2 : Vec γ) (f : α → γ → Except ε β)
    (hTV : layoutT ≠ layoutV) (hUV : layoutU ≠ layoutV) :
    try_zip_with layoutT layoutU layoutV frA frC v1 v2 f =
      (let rows := v1.data.zip v2.data
       let g : α × γ → Except ε β := fun r => f r.1 r.2
       { result := (collectResults g rows).map (collectVec layoutV frA frC),
         calls := callsOf g rows,
         droppedOut :=
           match collectResults g rows with
           | .ok _ => []
           | .error _ => okPrefix g rows,
         droppedLeft := v1.data.drop (callsOf g rows).length,
         droppedRight := v2.data.drop (callsOf g rows).length }) := by
  unfold try_zip_with
  rw [show (layoutT == layoutV) = false by simp [hTV],
    show (layoutU == layoutV) = false by simp [hUV]]

theorem runSeq_swap (f : α → γ → Except ε β) (xs : List α) (ys : List γ) :
    runSeq (fun p => f p.2 p.1) (ys.zip xs) =
      runSeq (fun p => f p.1 p.2) (xs.zip ys) := by
  rw [show ys.zip xs = (xs.zip ys).map Prod.swap from (List.zip_swap xs ys).symm,
    runSeq_map]
  rfl

theorem collect_swap (f : α → γ → Except ε β) (xs : List α) (ys : List γ) :
    collectResults (fun p => f p.2 p.1) (ys.zip xs) =
      collectResults (fun p => f p.1 p.2) (xs.zip ys) := by
  have h := runSeq_swap f xs ys
  cases hr : runSeq (fun p => f p.1 p.2) (xs.zip ys) with
  | inl o => rw [collectResults_of_inl hr, collectResults_of_inl (h.trans hr)]
  | inr p =>
    obtain ⟨k, e, o⟩ := p
    rw [collectResults_of_inr hr, collectResults_of_inr (h.trans hr)]

theorem runSeq_inl_of_collect_ok {g : ρ → Except ε β} {rows : List ρ}
    {outs : List β} (h : collectResults g rows = .ok outs) :
    runSeq g rows = Sum.inl outs := by
  cases hr : runSeq g rows with
  | inl o =>
    have ho := (collectResults_of_inl hr).symm.trans h
    simp at ho
    rw [ho]
  | inr p =>
    obtain ⟨k, e, o⟩ := p
    rw [collectResults_of_inr hr] at h
    simp at h

/-- The value sequence produced by the in-place engine equals the
straightforward collect over the zipped rows. -/
theorem zipEngineRun_result_map [Inhabited α] [Inhabited γ] (v1 : Vec α)
    (v2 : Vec γ) (f : α → γ → Except ε β) :
    (zipEngineRun v1 v2 f).result.map Vec.data =
      collectResults (fun p => f p.1 p.2) (v1.data.zip v2.data) := by
  cases hr : runSeq (fun p => f p.1 p.2) (v1.data.zip v2.data) with
  | inl outs =>
    rw [(zipEngineRun_spec v1 v2 f).1 outs hr, collectResults_of_inl hr]
    rfl
  | inr p =>
    obtain ⟨k, e, o⟩ := p
    rw [(zipEngineRun_spec v1 v2 f).2 k e o hr, collectResults_of_inr hr]
    rfl

/-- The value sequence returned by `try_zip_with` equals the collect over
the zipped rows on every path (both in-place orientations and the
iterator fallback). -/
theorem try_zip_with_result_map [Inhabited α] [Inhabited γ]
    (layoutT layoutU layoutV : Layout) (frA frC : Nat) (v1 : Vec α)
    (v2 : Vec γ) (f : α → γ → Except ε β) :
    (try_zip_with layoutT layoutU layoutV frA frC v1 v2 f).result.map Vec.data =
      collectResults (fun p => f p.1 p.2) (v1.data.zip v2.data) := by
  by_cases hTV : layoutT = layoutV
  · by_cases hUV : layoutU = layoutV
    · by_cases hc : v2.cap ≤ v1.cap
      · rw [try_zip_with_arm1 layoutT layoutU layoutV frA frC v1 v2 f hTV
          (Or.inr hc)]
        exact zipEngineRun_result_map v1 v2 f
      · rw [try_zip_with_arm2 layoutT layoutU layoutV frA frC v1 v2 f hUV
          (Or.inr hc)]
        dsimp only
        rw [show ((zipEngineRun v2 v1 (fun y x => f x y)).result.map Vec.data) =
            collectResults (fun p => f p.2 p.1) (v2.data.zip v1.data) from
          zipEngineRun_result_map v2 v1 (fun y x => f x y)]
        exact collect_swap f v1.data v2.data
    · rw [try_zip_with_arm1 layoutT layoutU layoutV frA frC v1 v2 f hTV
        (Or.inl hUV)]
      exact zipEngineRun_result_map v1 v2 f
  · by_cases hUV : layoutU = layoutV
    · rw [try_zip_with_arm2 layoutT layoutU layoutV frA frC v1 v2 f hUV
        (Or.inl hTV)]
      dsimp only
      rw [show ((zipEngineRun v2 v1 (fun y x => f x y)).result.map Vec.data) =
          collectResults (fun p => f p.2 p.1) (v2.data.zip v1.data) from
        zipEngineRun_result_map v2 v1 (fun y x => f x y)]
      exact collect_swap f v1.data v2.data
    · rw [try_zip_with_arm3 layoutT layoutU layoutV frA frC v1 v2 f hTV hUV]
      dsimp only
      cases hcr : collectResults (fun p => f p.1 p.2) (v1.data.zip v2.data) with
      | ok outs => simp [Except.map]
      | error e => simp [Except.map]

/-- C3: for every pair of input vectors and every transform `f`, a
successful `zip_with`/`try_zip_with` returns a vector whose `i`-th element
is `f` applied to the `i`-th elements of the inputs, for every
`i < min length`; moreover on every path (in-place reuse or iterator
fallback) the returned value sequence equals the straightforward
collect over the zipped rows, so the two paths return equal sequences. -/
theorem zip_with_elementwise [Inhabited α] [Inhabited γ] [Inhabited β]
    (layoutT layoutU layoutV : Layout) (frA frC : Nat) (v1 : Vec α)
    (v2 : Vec γ) (f : α → γ → Except ε β) :
    ((try_zip_with layoutT layoutU layoutV frA frC v1 v2 f).result.map Vec.data =
        collectResults (fun p => f p.1 p.2) (v1.data.zip v2.data)) ∧
      ∀ res,
        (try_zip_with layoutT layoutU layoutV frA frC v1 v2 f).result = .ok res →
        res.data.length = min v1.data.length v2.data.length ∧
          ∀ i, i < v1.data.length → i < v2.data.length →
            f (v1.data.getD i default) (v2.data.getD i default) =
              .ok (res.data.getD i default) := by
  have hmain := try_zip_with_result_map layoutT layoutU layoutV frA frC v1 v2 f
  refine ⟨hmain, ?_⟩
  intro res hres
  have h1 : collectResults (fun p => f p.1 p.2) (v1.data.zip v2.data) =
      .ok res.data := by
    rw [← hmain, hres]
    rfl
  have h2 := runSeq_inl_of_collect_ok h1
  have hlen := runSeq_inl_length h2
  rw [List.length_zip] at hlen
  refine ⟨hlen, ?_⟩
  intro i hi1 hi2
  have hi : i < (v1.data.zip v2.data).length := by rw [List.length_zip]; omega
  have hg := runSeq_inl_get h2 (default, default) default i hi
  rw [getD_zip hi1 hi2] at hg
  simpa using hg

/-- C4: for every pair of input vectors, a successful
`zip_with`/`try_zip_with` returns a vector whose length is the minimum of
the input lengths, and the excess elements of any longer input (the
elements from position `min` on) are exactly the input elements the call
drops. -/
theorem zip_length_min_excess_dropped [Inhabited α] [Inhabited γ]
    (layoutT layoutU layoutV : Layout) (frA frC : Nat) (v1 : Vec α)
    (v2 : Vec γ) (f : α → γ → Except ε β) (res : Vec β)
    (hres : (try_zip_with layoutT layoutU layoutV frA frC v1 v2 f).result =
      .ok res) :
    res.data.length = min v1.data.length v2.data.length ∧
      (try_zip_with layoutT layoutU layoutV frA frC v1 v2 f).droppedLeft =
        v1.data.drop (min v1.data.length v2.data.length) ∧
      (try_zip_with layoutT layoutU layoutV frA frC v1 v2 f).droppedRight =
        v2.data.drop (min v1.data.length v2.data.length) := by
  have hmain := try_zip_with_result_map layoutT layoutU layoutV frA frC v1 v2 f
  have h1 : collectResults (fun p => f p.1 p.2) (v1.data.zip v2.data) =
      .ok res.data := by
    rw [← hmain, hres]
    rfl
  have h2 := runSeq_inl_of_collect_ok h1
  have hlen := runSeq_inl_length h2
  rw [List.length_zip] at hlen
  refine ⟨hlen, ?_⟩
  have h2' : runSeq (fun p => f p.2 p.1) (v2.data.zip v1.data) =
      Sum.inl res.data := (runSeq_swap f v1.data v2.data).trans h2
  by_cases hTV : layoutT = layoutV
  · by_cases hUV : layoutU = layoutV
    · by_cases hc : v2.cap ≤ v1.cap
      · rw [try_zip_with_arm1 layoutT layoutU layoutV frA frC v1 v2 f hTV
          (Or.inr hc), (zipEngineRun_spec v1 v2 f).1 res.data h2]
        exact ⟨rfl, rfl⟩
      · rw [try_zip_with_arm2 layoutT layoutU layoutV frA frC v1 v2 f hUV
          (Or.inr hc)]
        dsimp only
        rw [(zipEngineRun_spec v2 v1 (fun y x => f x y)).1 res.data h2']
        exact ⟨by rw [Nat.min_comm], by rw [Nat.min_comm]⟩
    · rw [try_zip_with_arm1 layoutT layoutU layoutV frA frC v1 v2 f hTV
        (Or.inl hUV), (zipEngineRun_spec v1 v2 f).1 res.data h2]
      exact ⟨rfl, rfl⟩
  · by_cases hUV : layoutU = layoutV
    · rw [try_zip_with_arm2 layoutT layoutU layoutV frA frC v1 v2 f hUV
        (Or.inl hTV)]
      dsimp only
      rw [(zipEngineRun_spec v2 v1 (fun y x => f x y)).1 res.data h2']
      exact ⟨by rw [Nat.min_comm], by rw [Nat.min_comm]⟩
    · rw [try_zip_with_arm3 layoutT layoutU layoutV frA frC v1 v2 f hTV hUV]
      dsimp only
      rw [callsOf_of_inl h2, List.length_zip]
      exact ⟨rfl, rfl⟩

/-- Witness for C4: two concrete vectors of different lengths on the
reuse path. -/
theorem zip_length_min_excess_dropped_witness :
    (try_zip_with ⟨4, 4⟩ ⟨4, 4⟩ ⟨4, 4⟩ 90 90 (⟨1, [], 5⟩ : Vec Nat)
        (⟨2, [10, 20], 3⟩ : Vec Nat)
        (fun x y => (.ok (x + y) : Except Unit Nat))).result = .ok ⟨1, [], 5⟩ ∧
      (([] : List Nat).length = min ([] : List Nat).length [10, 20].length ∧
        (try_zip_with ⟨4, 4⟩ ⟨4, 4⟩ ⟨4, 4⟩ 90 90 (⟨1, [], 5⟩ : Vec Nat)
            (⟨2, [10, 20], 3⟩ : Vec Nat)
            (fun x y => (.ok (x + y) : Except Unit Nat))).droppedLeft =
          [].drop (min ([] : List Nat).length [10, 20].length) ∧
        (try_zip_with ⟨4, 4⟩ ⟨4, 4⟩ ⟨4, 4⟩ 90 90 (⟨1, [], 5⟩ : Vec Nat)
            (⟨2, [10, 20], 3⟩ : Vec Nat)
            (fun x y => (.ok (x + y) : Except Unit Nat))).droppedRight =
          [10, 20].drop (min ([] : List Nat).length [10, 20].length)) := by
  have hres : (try_zip_with ⟨4, 4⟩ ⟨4, 4⟩ ⟨4, 4⟩ 90 90 (⟨1, [], 5⟩ : Vec Nat)
      (⟨2, [10, 20], 3⟩ : Vec Nat)
      (fun x y => (.ok (x + y) : Except Unit Nat))).result = .ok ⟨1, [], 5⟩ := by
    rw [try_zip_with_arm1 _ _ _ _ _ _ _ _ rfl (Or.inr (by decide)),
      (zipEngineRun_spec _ _ _).1 [] (by decide)]
  exact ⟨hres,
    zip_length_min_excess_dropped ⟨4, 4⟩ ⟨4, 4⟩ ⟨4, 4⟩ 90 90 _ _ _ ⟨1, [], 5⟩ hres⟩

/-- C5: if the fallible transform passed to `try_map` or `try_zip_with`
first fails at logical row `k` (it succeeds on every earlier row and
returns `error e` at row `k`), the call returns exactly the user's error
value, and the transform has been invoked exactly once on each of rows
`0..k`, in order, and on no later row — on every layout path. -/
theorem try_short_circuit [Inhabited α] [Inhabited γ] [Inhabited β] :
    (∀ (layoutT layoutU : Layout) (frA frC : Nat) (v : Vec α)
        (f : α → Except ε β) (k : Nat) (e : ε),
      k < v.data.length →
      f (v.data.getD k default) = .error e →
      (∀ i, i < k → ∃ u, f (v.data.getD i default) = .ok u) →
      (try_map layoutT layoutU frA frC v f).result = .error e ∧
        (try_map layoutT layoutU frA frC v f).calls = v.data.take (k + 1)) ∧
    ∀ (layoutT layoutU layoutV : Layout) (frA frC : Nat) (v1 : Vec α)
        (v2 : Vec γ) (f : α → γ → Except ε β) (k : Nat) (e : ε),
      k < min v1.data.length v2.data.length →
      f (v1.data.getD k default) (v2.data.getD k default) = .error e →
      (∀ i, i < k →
        ∃ u, f (v1.data.getD i default) (v2.data.getD i default) = .ok u) →
      (try_zip_with layoutT layoutU layoutV frA frC v1 v2 f).result = .error e ∧
        (try_zip_with layoutT layoutU layoutV frA frC v1 v2 f).calls =
          (v1.data.zip v2.data).take (k + 1) := by
  constructor
  · intro layoutT layoutU frA frC v f k e hk he hok
    obtain ⟨outs, houts⟩ := runSeq_eq_inr_of default hk he hok
    by_cases h : layoutT = layoutU
    · rw [(try_map_spec layoutT layoutU frA frC v f h).2 k e outs houts]
      exact ⟨rfl, rfl⟩
    · unfold try_map
      rw [if_neg h]
      dsimp only
      rw [collectResults_of_inr houts, callsOf_of_inr houts]
      exact ⟨rfl, rfl⟩
  · intro layoutT layoutU layoutV frA frC v1 v2 f k e hk he hok
    have hk1 : k < v1.data.length := by omega
    have hk2 : k < v2.data.length := by omega
    have hkz : k < (v1.data.zip v2.data).length := by rw [List.length_zip]; omega
    have he' : (fun p : α × γ => f p.1 p.2) ((v1.data.zip v2.data).getD k
        (default, default)) = .error e := by
      rw [getD_zip hk1 hk2]
      exact he
    have hok' : ∀ i, i < k → ∃ u, (fun p : α × γ => f p.1 p.2)
        ((v1.data.zip v2.data).getD i (default, default)) = .ok u := by
      intro i hi
      rw [getD_zip (by omega) (by omega)]
      exact hok i hi
    obtain ⟨outs, houts⟩ := runSeq_eq_inr_of
      (g := fun p : α × γ => f p.1 p.2) (default, default) hkz he' hok'
    have houts' : runSeq (fun p => f p.2 p.1) (v2.data.zip v1.data) =
        Sum.inr (k, e, outs) := (runSeq_swap f v1.data v2.data).trans houts
    have hcalls' : ((v2.data.zip v1.data).take (k + 1)).map
        (fun p : γ × α => (p.2, p.1)) = (v1.data.zip v2.data).take (k + 1) := by
      rw [List.map_take]
      congr 1
      rw [show (fun p : γ × α => (p.2, p.1)) = Prod.swap from rfl,
        List.zip_swap]
    by_cases hTV : layoutT = layoutV
    · by_cases hUV : layoutU = layoutV
      · by_cases hc : v2.cap ≤ v1.cap
        · rw [try_zip_with_arm1 layoutT layoutU layoutV frA frC v1 v2 f hTV
            (Or.inr hc), (zipEngineRun_spec v1 v2 f).2 k e outs houts]
          exact ⟨rfl, rfl⟩
        · rw [try_zip_with_arm2 layoutT layoutU layoutV frA frC v1 v2 f hUV
            (Or.inr hc)]
          dsimp only
          rw [(zipEngineRun_spec v2 v1 (fun y x => f x y)).2 k e outs houts']
          exact ⟨rfl, hcalls'⟩
      · rw [try_zip_with_arm1 layoutT layoutU layoutV frA frC v1 v2 f hTV
          (Or.inl hUV), (zipEngineRun_spec v1 v2 f).2 k e outs houts]
        exact ⟨rfl, rfl⟩
    · by_cases hUV : layoutU = layoutV
      · rw [try_zip_with_arm2 layoutT layoutU layoutV frA frC v1 v2 f hUV
          (Or.inl hTV)]
        dsimp only
        rw [(zipEngineRun_spec v2 v1 (fun y x => f x y)).2 k e outs houts']
        exact ⟨rfl, hcalls'⟩
      · rw [try_zip_with_arm3 layoutT layoutU layoutV frA frC v1 v2 f hTV hUV]
        dsimp only
        rw [collectResults_of_inr houts, callsOf_of_inr houts]
        exact ⟨rfl, rfl⟩

/-- Witness for C5: a transform failing at row 1 of a three-row map and of
a two-row zip. -/
theorem try_short_circuit_witness :
    (1 < ([5, 6, 7] : List Nat).length ∧
      (try_map ⟨4, 4⟩ ⟨4, 4⟩ 91 91 (⟨3, [5, 6, 7], 4⟩ : Vec Nat)
        (fun x => if x = 6 then .error 42 else (.ok x : Except Nat Nat))).result =
          .error 42 ∧
      (try_map ⟨4, 4⟩ ⟨4, 4⟩ 91 91 (⟨3, [5, 6, 7], 4⟩ : Vec Nat)
        (fun x => if x = 6 then .error 42 else (.ok x : Except Nat Nat))).calls =
          [5, 6, 7].take 2) ∧
    ((try_zip_with ⟨4, 4⟩ ⟨4, 4⟩ ⟨4, 4⟩ 92 92 (⟨3, [5, 6], 4⟩ : Vec Nat)
        (⟨7, [1, 1], 4⟩ : Vec Nat)
        (fun x y => if x = 6 then .error 42 else (.ok (x + y) : Except Nat Nat))).result =
          .error 42 ∧
      (try_zip_with ⟨4, 4⟩ ⟨4, 4⟩ ⟨4, 4⟩ 92 92 (⟨3, [5, 6], 4⟩ : Vec Nat)
        (⟨7, [1, 1], 4⟩ : Vec Nat)
        (fun x y => if x = 6 then .error 42 else (.ok (x + y) : Except Nat Nat))).calls =
          ([5, 6].zip [1, 1]).take 2) := by
  constructor
  · refine ⟨by decide, ?_⟩
    exact (try_short_circuit (γ := Nat)).1 ⟨4, 4⟩ ⟨4, 4⟩ 91 91 ⟨3, [5, 6, 7], 4⟩
      (fun x => if x = 6 then .error 42 else (.ok x : Except Nat Nat)) 1 42
      (by decide) (by rfl)
      (by intro i hi; rw [show i = 0 by omega]; exact ⟨5, rfl⟩)
  · exact (try_short_circuit (α := Nat)).2 ⟨4, 4⟩ ⟨4, 4⟩ ⟨4, 4⟩ 92 92
      ⟨3, [5, 6], 4⟩ ⟨7, [1, 1], 4⟩
      (fun x y => if x = 6 then .error 42 else (.ok (x + y) : Except Nat Nat)) 1 42
      (by decide) (by rfl)
      (by intro i hi; rw [show i = 0 by omega]; exact ⟨6, rfl⟩)

/-- Witness for C3: a concrete two-row zip on the reuse path. -/
theorem zip_with_elementwise_witness :
    (try_zip_with ⟨4, 4⟩ ⟨4, 4⟩ ⟨4, 4⟩ 93 93 (⟨1, [2, 3], 4⟩ : Vec Nat)
        (⟨2, [10, 20, 30], 4⟩ : Vec Nat)
        (fun x y => (.ok (x + y) : Except Unit Nat))).result =
      .ok ⟨1, [12, 23], 4⟩ ∧
    ((⟨1, [12, 23], 4⟩ : Vec Nat).data.length =
        min ([2, 3] : List Nat).length ([10, 20, 30] : List Nat).length ∧
      ∀ i, i < ([2, 3] : List Nat).length → i < ([10, 20, 30] : List Nat).length →
        (fun x y => (.ok (x + y) : Except Unit Nat))
            (([2, 3] : List Nat).getD i default)
            (([10, 20, 30] : List Nat).getD i default) =
          .ok ((⟨1, [12, 23], 4⟩ : Vec Nat).data.getD i default)) := by
  have hres : (try_zip_with ⟨4, 4⟩ ⟨4, 4⟩ ⟨4, 4⟩ 93 93 (⟨1, [2, 3], 4⟩ : Vec Nat)
      (⟨2, [10, 20, 30], 4⟩ : Vec Nat)
      (fun x y => (.ok (x + y) : Except Unit Nat))).result =
      .ok ⟨1, [12, 23], 4⟩ := by
    rw [try_zip_with_arm1 _ _ _ _ _ _ _ _ rfl (Or.inr (by decide)),
      (zipEngineRun_spec _ _ _).1 [12, 23] (by rfl)]
  exact ⟨hres,
    (zip_with_elementwise ⟨4, 4⟩ ⟨4, 4⟩ ⟨4, 4⟩ 93 93 _ _ _).2 ⟨1, [12, 23], 4⟩ hres⟩

/-- C2: whenever at least one input's element layout equals the output
element layout, the vector returned by a successful `try_map` (and hence
`map`) or `try_zip_with` (and hence `zip_with`) reuses the backing
allocation of one of the layout-matching inputs: its base pointer equals
that input's base pointer and its capacity equals the maximum capacity
among the layout-matching inputs. -/
theorem reuse_allocation [Inhabited α] [Inhabited γ] :
    (∀ (layoutT layoutU : Layout) (frA frC : Nat) (v : Vec α)
        (f : α → Except ε β) (res : Vec β),
      layoutT = layoutU →
      (try_map layoutT layoutU frA frC v f).result = .ok res →
      res.alloc = v.alloc ∧ res.cap = v.cap) ∧
    ∀ (layoutT layoutU layoutV : Layout) (frA frC : Nat) (v1 : Vec α)
        (v2 : Vec γ) (f : α → γ → Except ε β) (res : Vec β),
      (try_zip_with layoutT layoutU layoutV frA frC v1 v2 f).result = .ok res →
      (layoutT = layoutV ∧ layoutU = layoutV →
        res.cap = max v1.cap v2.cap ∧
          (res.alloc = v1.alloc ∨ res.alloc = v2.alloc)) ∧
      (layoutT = layoutV ∧ layoutU ≠ layoutV →
        res.alloc = v1.alloc ∧ res.cap = v1.cap) ∧
      (layoutT ≠ layoutV ∧ layoutU = layoutV →
        res.alloc = v2.alloc ∧ res.cap = v2.cap) := by
  constructor
  · intro layoutT layoutU frA frC v f res h hres
    cases hr : runSeq f v.data with
    | inl outs =>
      rw [(try_map_spec layoutT layoutU frA frC v f h).1 outs hr] at hres
      simp at hres
      subst hres
      exact ⟨rfl, rfl⟩
    | inr p =>
      obtain ⟨k, e, o⟩ := p
      rw [(try_map_spec layoutT layoutU frA frC v f h).2 k e o hr] at hres
      simp at hres
  · intro layoutT layoutU layoutV frA frC v1 v2 f res hres
    by_cases hTV : layoutT = layoutV
    · by_cases hUV : layoutU = layoutV
      · by_cases hc : v2.cap ≤ v1.cap
        · rw [try_zip_with_arm1 layoutT layoutU layoutV frA frC v1 v2 f hTV
            (Or.inr hc)] at hres
          cases hr : runSeq (fun p => f p.1 p.2) (v1.data.zip v2.data) with
          | inl outs =>
            rw [(zipEngineRun_spec v1 v2 f).1 outs hr] at hres
            simp at hres
            subst hres
            refine ⟨fun _ => ⟨by simp; omega, Or.inl (by simp)⟩,
              fun hcond => absurd hUV hcond.2, fun hcond => absurd hTV hcond.1⟩
          | inr p =>
            obtain ⟨k, e, o⟩ := p
            rw [(zipEngineRun_spec v1 v2 f).2 k e o hr] at hres
            simp at hres
        · rw [try_zip_with_arm2 layoutT layoutU layoutV frA frC v1 v2 f hUV
            (Or.inr hc)] at hres
          dsimp only at hres
          cases hr : runSeq (fun p => f p.1 p.2) (v1.data.zip v2.data) with
          | inl outs =>
            rw [(zipEngineRun_spec v2 v1 (fun y x => f x y)).1 outs
              ((runSeq_swap f v1.data v2.data).trans hr)] at hres
            simp at hres
            subst hres
            refine ⟨fun _ => ⟨by simp; omega, Or.inr (by simp)⟩,
              fun hcond => absurd hUV hcond.2, fun hcond => absurd hTV hcond.1⟩
          | inr p =>
            obtain ⟨k, e, o⟩ := p
            rw [(zipEngineRun_spec v2 v1 (fun y x => f x y)).2 k e o
              ((runSeq_swap f v1.data v2.data).trans hr)] at hres
            simp at hres
      · rw [try_zip_with_arm1 layoutT layoutU layoutV frA frC v1 v2 f hTV
          (Or.inl hUV)] at hres
        cases hr : runSeq (fun p => f p.1 p.2) (v1.data.zip v2.data) with
        | inl outs =>
          rw [(zipEngineRun_spec v1 v2 f).1 outs hr] at hres
          simp at hres
          subst hres
          refine ⟨fun hcond => absurd hcond.2 hUV,
            fun _ => ⟨by simp, by simp⟩, fun hcond => absurd hTV hcond.1⟩
        | inr p =>
          obtain ⟨k, e, o⟩ := p
          rw [(zipEngineRun_spec v1 v2 f).2 k e o hr] at hres
          simp at hres
    · by_cases hUV : layoutU = layoutV
      · rw [try_zip_with_arm2 layoutT layoutU layoutV frA frC v1 v2 f hUV
          (Or.inl hTV)] at hres
        dsimp only at hres
        cases hr : runSeq (fun p => f p.1 p.2) (v1.data.zip v2.data) with
        | inl outs =>
          rw [(zipEngineRun_spec v2 v1 (fun y x => f x y)).1 outs
            ((runSeq_swap f v1.data v2.data).trans hr)] at hres
          simp at hres
          subst hres
          refine ⟨fun hcond => absurd hcond.1 hTV,
            fun hcond => absurd hcond.1 hTV, fun _ => ⟨by simp, by simp⟩⟩
        | inr p =>
          obtain ⟨k, e, o⟩ := p
          rw [(zipEngineRun_spec v2 v1 (fun y x => f x y)).2 k e o
            ((runSeq_swap f v1.data v2.data).trans hr)] at hres
          simp at hres
      · refine ⟨fun hcond => absurd hcond.1 hTV,
          fun hcond => absurd hcond.1 hTV, fun hcond => absurd hcond.2 hUV⟩

/-- Witness for C2: concrete reuse on `try_map` and on `try_zip_with`
with both layouts matching. -/
theorem reuse_allocation_witness :
    ((⟨4, 4⟩ : Layout) = ⟨4, 4⟩ ∧
      (try_map ⟨4, 4⟩ ⟨4, 4⟩ 94 94 (⟨5, [8], 3⟩ : Vec Nat)
          (fun x => (.ok (x + 1) : Except Unit Nat))).result = .ok ⟨5, [9], 3⟩ ∧
      ((⟨5, [9], 3⟩ : Vec Nat).alloc = 5 ∧ (⟨5, [9], 3⟩ : Vec Nat).cap = 3)) ∧
    ((try_zip_with ⟨4, 4⟩ ⟨4, 4⟩ ⟨4, 4⟩ 95 95 (⟨1, [2], 5⟩ : Vec Nat)
          (⟨2, [3], 7⟩ : Vec Nat)
          (fun x y => (.ok (x * y) : Except Unit Nat))).result = .ok ⟨2, [6], 7⟩ ∧
      ((⟨2, [6], 7⟩ : Vec Nat).cap = max 5 7 ∧
        ((⟨2, [6], 7⟩ : Vec Nat).alloc = 1 ∨ (⟨2, [6], 7⟩ : Vec Nat).alloc = 2))) := by
  have hres1 : (try_map (⟨4, 4⟩ : Layout) ⟨4, 4⟩ 94 94 (⟨5, [8], 3⟩ : Vec Nat)
      (fun x => (.ok (x + 1) : Except Unit Nat))).result = .ok ⟨5, [9], 3⟩ := by
    rw [(try_map_spec _ _ _ _ _ _ rfl).1 [9] (by rfl)]
  have hres2 : (try_zip_with (⟨4, 4⟩ : Layout) ⟨4, 4⟩ ⟨4, 4⟩ 95 95
      (⟨1, [2], 5⟩ : Vec Nat) (⟨2, [3], 7⟩ : Vec Nat)
      (fun x y => (.ok (x * y) : Except Unit Nat))).result = .ok ⟨2, [6], 7⟩ := by
    rw [try_zip_with_arm2 _ _ _ _ _ _ _ _ rfl (Or.inr (by decide))]
    dsimp only
    rw [(zipEngineRun_spec _ _ _).1 [6] (by rfl)]
  refine ⟨⟨rfl, hres1, ?_⟩, hres2, ?_⟩
  · exact (reuse_allocation (γ := Nat)).1 ⟨4, 4⟩ ⟨4, 4⟩ 94 94 ⟨5, [8], 3⟩
      (fun x => (.ok (x + 1) : Except Unit Nat)) ⟨5, [9], 3⟩ rfl hres1
  · exact ((reuse_allocation (α := Nat) (γ := Nat)).2 ⟨4, 4⟩ ⟨4, 4⟩ ⟨4, 4⟩ 95 95
      ⟨1, [2], 5⟩ ⟨2, [3], 7⟩ (fun x y => (.ok (x * y) : Except Unit Nat))
      ⟨2, [6], 7⟩ hres2).1 ⟨rfl, rfl⟩

/-- C7: `drop_and_reuse::<U>` drops all of the vector's elements and
returns an empty vector; when the element layouts are equal the returned
vector keeps the input's base pointer and capacity, and otherwise it
equals `Vec::new()` (no allocation: dangling pointer `align`, capacity
0). -/
theorem drop_and_reuse_spec [Inhabited α] [Inhabited β]
    (layoutT layoutU : Layout) (frA frC : Nat) (v : Vec α) :
    (drop_and_reuse layoutT layoutU frA frC v (β := β)).1 = v.data ∧
      (drop_and_reuse layoutT layoutU frA frC v (β := β)).2.data = [] ∧
      (layoutT = layoutU →
        (drop_and_reuse layoutT layoutU frA frC v (β := β)).2.alloc = v.alloc ∧
          (drop_and_reuse layoutT layoutU frA frC v (β := β)).2.cap = v.cap) ∧
      (layoutT ≠ layoutU →
        (drop_and_reuse layoutT layoutU frA frC v (β := β)).2 =
          ⟨layoutU.align, [], 0⟩) := by
  by_cases h : layoutT = layoutU
  · unfold drop_and_reuse VecExt.map try_map
    rw [if_pos h, MapIter.loop_done _ _ _ (by simp [Input.fromVec])]
    refine ⟨by simp, by simp [Input.fromVec], fun _ => ?_, fun hne => absurd h hne⟩
    exact ⟨by simp [Input.fromVec], by simp [Input.fromVec]⟩
  · unfold drop_and_reuse VecExt.map try_map
    rw [if_neg h]
    refine ⟨?_, ?_, fun heq => absurd heq h, fun _ => ?_⟩
    · simp [callsOf]
    · simp [collectResults, collectVec, Except.map]
    · simp [collectResults, collectVec, Except.map]

/-- Witness for C7 at a concrete vector, for both a matching and a
mismatching output layout. -/
theorem drop_and_reuse_spec_witness :
    ((⟨4, 4⟩ : Layout) = ⟨4, 4⟩ ∧
      (drop_and_reuse ⟨4, 4⟩ ⟨4, 4⟩ 96 96 (⟨6, [1, 2], 9⟩ : Vec Nat)
          (β := Nat)).1 = [1, 2] ∧
      (drop_and_reuse ⟨4, 4⟩ ⟨4, 4⟩ 96 96 (⟨6, [1, 2], 9⟩ : Vec Nat)
          (β := Nat)).2.alloc = 6 ∧
      (drop_and_reuse ⟨4, 4⟩ ⟨4, 4⟩ 96 96 (⟨6, [1, 2], 9⟩ : Vec Nat)
          (β := Nat)).2.cap = 9) ∧
    ((⟨4, 4⟩ : Layout) ≠ ⟨8, 8⟩ ∧
      (drop_and_reuse ⟨4, 4⟩ ⟨8, 8⟩ 96 96 (⟨6, [1, 2], 9⟩ : Vec Nat)
          (β := Nat)).2 = ⟨8, [], 0⟩) := by
  constructor
  · have h := drop_and_reuse_spec (β := Nat) ⟨4, 4⟩ ⟨4, 4⟩ 96 96
      (⟨6, [1, 2], 9⟩ : Vec Nat)
    exact ⟨rfl, h.1, (h.2.2.1 rfl).1, (h.2.2.1 rfl).2⟩
  · have h := drop_and_reuse_spec (β := Nat) ⟨4, 4⟩ ⟨8, 8⟩ 96 96
      (⟨6, [1, 2], 9⟩ : Vec Nat)
    exact ⟨by decide, h.2.2.2 (by decide)⟩

namespace GeneralZip

theorem ZipWithIter.gz_loop_zero {t : Tup} (f : t.Item → Except ε β)
    (s : ZipWithIter β t) (calls : List t.Item) (h : s.min_len = 0) :
    ZipWithIter.loop f s calls = .inl (s, calls) := by
  rw [ZipWithIter.loop.eq_def]
  split
  · rfl
  · omega

theorem ZipWithIter.gz_loop_succ {t : Tup} (f : t.Item → Except ε β)
    (s : ZipWithIter β t) (calls : List t.Item) (m : Nat)
    (h : s.min_len = m + 1) :
    ZipWithIter.loop f s calls =
      match f (t.next s.input).1 with
      | .error e =>
        .inr (e, { s with min_len := m, input := (t.next s.input).2 },
          calls ++ [(t.next s.input).1])
      | .ok v =>
        ZipWithIter.loop f
          { s with min_len := m, input := (t.next s.input).2,
                   out := { s.out with written := s.out.written ++ [v] } }
          (calls ++ [(t.next s.input).1]) := by
  rw [ZipWithIter.loop.eq_def]
  split
  · omega
  · next n hnn =>
    have hnm : n = m := by omega
    subst hnm
    rfl

theorem ZipWithIter.gz_loop_spec {t : Tup} (f : t.Item → Except ε β)
    (ml : Nat) (os : Nat) (w : List β) (oc : Nat) (d : t.Data) (il : Nat)
    (sb : Bool) (calls : List t.Item) :
    (∀ outs, runSeq f (t.peekRows d ml) = Sum.inl outs →
        ZipWithIter.loop f ⟨⟨os, w, oc⟩, d, il, ml, sb⟩ calls =
          Sum.inl (⟨⟨os, w ++ outs, oc⟩, t.advanceData d ml, il, 0, sb⟩,
            calls ++ t.peekRows d ml)) ∧
      ∀ k e outs, runSeq f (t.peekRows d ml) = Sum.inr (k, e, outs) →
        ZipWithIter.loop f ⟨⟨os, w, oc⟩, d, il, ml, sb⟩ calls =
          Sum.inr (e, ⟨⟨os, w ++ outs, oc⟩, t.advanceData d (k + 1), il,
              ml - (k + 1), sb⟩,
            calls ++ (t.peekRows d ml).take (k + 1)) := by
  induction ml generalizing d w calls with
  | zero =>
    constructor
    · intro outs houts
      simp [Tup.peekRows, runSeq] at houts
      rw [ZipWithIter.gz_loop_zero f _ _ rfl]
      subst houts
      simp [Tup.peekRows, Tup.advanceData]
    · intro k e outs houts
      simp [Tup.peekRows, runSeq] at houts
  | succ m ih =>
    have hpeek : t.peekRows d (m + 1) =
        (t.next d).1 :: t.peekRows (t.next d).2 m := rfl
    constructor
    · intro outs houts
      rw [hpeek] at houts
      simp only [runSeq] at houts
      cases hfx : f (t.next d).1 with
      | error e => rw [hfx] at houts; simp at houts
      | ok v =>
        rw [hfx] at houts
        cases hrr : runSeq f (t.peekRows (t.next d).2 m) with
        | inr p => rw [hrr] at houts; simp at houts
        | inl outs' =>
          rw [hrr] at houts
          simp at houts
          rw [ZipWithIter.gz_loop_succ f _ _ m rfl]
          dsimp only
          rw [hfx]
          dsimp only
          obtain ⟨ih1, _⟩ := ih (w ++ [v]) (t.next d).2 (calls ++ [(t.next d).1])
          rw [ih1 outs' hrr]
          subst houts
          rw [hpeek]
          simp [List.append_assoc]
          rfl
    · intro k e outs houts
      rw [hpeek] at houts
      simp only [runSeq] at houts
      cases hfx : f (t.next d).1 with
      | error e0 =>
        rw [hfx] at houts
        simp at houts
        obtain ⟨hk, he, ho⟩ := houts
        subst hk; subst he; subst ho
        rw [ZipWithIter.gz_loop_succ f _ _ m rfl]
        dsimp only
        rw [hfx]
        dsimp only
        rw [hpeek]
        simp
        rfl
      | ok v =>
        rw [hfx] at houts
        cases hrr : runSeq f (t.peekRows (t.next d).2 m) with
        | inl outs' => rw [hrr] at houts; simp at houts
        | inr p =>
          obtain ⟨k', e', outs'⟩ := p
          rw [hrr] at houts
          simp at houts
          obtain ⟨hk, he, ho⟩ := houts
          rw [ZipWithIter.gz_loop_succ f _ _ m rfl]
          dsimp only
          rw [hfx]
          dsimp only
          obtain ⟨_, ih2⟩ := ih (w ++ [v]) (t.next d).2 (calls ++ [(t.next d).1])
          rw [ih2 k' e' outs' hrr]
          subst hk; subst he; subst ho
          rw [hpeek]
          simp [List.append_assoc, List.take_succ_cons, Nat.succ_sub_succ]
          rfl

theorem Tup.peekRows_length (t : Tup) (d : t.Data) (n : Nat) :
    (t.peekRows d n).length = n := by
  induction n generalizing d with
  | zero => rfl
  | succ m ih => simp [Tup.peekRows, ih]

theorem Tup.dataFrom_into_data (t : Tup) :
    ∀ vs : t.Vecs, t.DataFrom vs 0 (t.into_data vs) := by
  induction t with
  | base α i lay =>
    intro v
    exact ⟨rfl, rfl, rfl, rfl⟩
  | cons α i lay t ih =>
    intro vs
    exact ⟨⟨rfl, rfl, rfl, rfl⟩, ih vs.2⟩

theorem Tup.dataFrom_next (t : Tup) :
    ∀ (vs : t.Vecs) (m : Nat) (d : t.Data),
      t.DataFrom vs m d → t.DataFrom vs (m + 1) (t.next d).2 := by
  induction t with
  | base α i lay =>
    intro v m d h
    obtain ⟨h1, h2, h3, h4⟩ := h
    exact ⟨h1, by simp [Tup.next, Input.next, Input.advance, h2,
      List.drop_drop, Nat.add_comm], h3, h4⟩
  | cons α i lay t ih =>
    intro vs m d h
    obtain ⟨⟨h1, h2, h3, h4⟩, hrest⟩ := h
    refine ⟨⟨h1, ?_, h3, h4⟩, ?_⟩
    · simp [Tup.next, Input.next, Input.advance, h2, List.drop_drop,
        Nat.add_comm]
    · exact ih vs.2 m d.2 hrest

theorem Tup.dataFrom_advanceData (t : Tup) (vs : t.Vecs) :
    ∀ (j m : Nat) (d : t.Data), t.DataFrom vs m d →
      t.DataFrom vs (m + j) (t.advanceData d j) := by
  intro j
  induction j with
  | zero =>
    intro m d h
    simpa [Tup.advanceData] using h
  | succ n ih =>
    intro m d h
    have h1 := Tup.dataFrom_next t vs m d h
    have h2 := ih (m + 1) _ h1
    have heq : m + 1 + n = m + (n + 1) := by omega
    rw [heq] at h2
    exact h2

theorem Tup.dropSpec_drop_rest (t : Tup) :
    ∀ (vs : t.Vecs) (m : Nat) (d : t.Data),
      t.DataFrom vs m d → t.DropSpec vs m (t.drop_rest d m) := by
  induction t with
  | base α i lay =>
    intro v m d h
    obtain ⟨-, h2, h3, -⟩ := h
    show Input.drop_rest d m = v.data.drop m
    rw [Input.drop_rest, h2, h3, List.take_of_length_le (by simp)]
  | cons α i lay t ih =>
    intro vs m d h
    obtain ⟨⟨-, h2, h3, -⟩, hrest⟩ := h
    refine ⟨?_, ih vs.2 m d.2 hrest⟩
    show Input.drop_rest d.1 m = vs.1.data.drop m
    rw [Input.drop_rest, h2, h3, List.take_of_length_le (by simp)]

theorem Tup.next_fst_eq_of_dataFrom (t : Tup) :
    ∀ (vs : t.Vecs) (m : Nat) (d d2 : t.Data),
      t.DataFrom vs m d → t.DataFrom vs m d2 →
      (t.next d).1 = (t.next d2).1 := by
  induction t with
  | base α i lay =>
    intro v m d d2 h h2
    simp only [Tup.next]
    simp [Input.next, h.2.1, h2.2.1]
  | cons α i lay t ih =>
    intro vs m d d2 h h2
    have hh := ih vs.2 m d.2 d2.2 h.2 h2.2
    simp only [Tup.next]
    simp [Input.next, h.1.2.1, h2.1.2.1, hh]

theorem Tup.peekRows_eq_of_dataFrom (t : Tup) (vs : t.Vecs) :
    ∀ (n m : Nat) (d d2 : t.Data), t.DataFrom vs m d → t.DataFrom vs m d2 →
      t.peekRows d n = t.peekRows d2 n := by
  intro n
  induction n with
  | zero => intros; rfl
  | succ j ih =>
    intro m d d2 h h2
    show (t.next d).1 :: t.peekRows (t.next d).2 j =
      (t.next d2).1 :: t.peekRows (t.next d2).2 j
    rw [Tup.next_fst_eq_of_dataFrom t vs m d d2 h h2,
      ih (m + 1) _ _ (Tup.dataFrom_next t vs m d h)
        (Tup.dataFrom_next t vs m d2 h2)]

end GeneralZip

namespace GeneralZip

theorem firstMaxPair_eq_none_iff (ps : List (Nat × Nat)) :
    firstMaxPair ps = none ↔ ps = [] := by
  cases ps with
  | nil => simp [firstMaxPair]
  | cons p tl =>
    simp only [firstMaxPair]
    cases h : firstMaxPair tl
    · simp
    · simp only []
      split <;> simp

theorem Tup.check_pick_iff (t : Tup) (lv : Layout) :
    ∀ d : t.Data, (t.check_pick lv = true ↔ t.dataMatchingPairs lv d ≠ []) := by
  induction t with
  | base α i lay =>
    intro d
    by_cases h : lay = lv <;> simp [Tup.check_pick, Tup.dataMatchingPairs, h]
  | cons α i lay t ih =>
    intro d
    by_cases h : lay = lv <;>
      simp [Tup.check_pick, Tup.dataMatchingPairs, h, ih d.2]

theorem Tup.pick_impl_pairs (lv : Layout) (t : Tup) :
    ∀ d : t.Data,
      (Tup.pick_impl lv t d (β := β)).map
          (fun od => (od.output.start, od.output.cap)) =
        firstMaxPair (t.dataMatchingPairs lv d) := by
  induction t with
  | base α i lay =>
    intro d
    by_cases h : lay = lv <;>
      simp [Tup.pick_impl, Tup.dataMatchingPairs, Input.try_pick, h, firstMaxPair]
  | cons α i lay t ih =>
    intro d
    have hfm := ih d.2
    by_cases h : lay = lv
    · simp only [Tup.pick_impl, Tup.dataMatchingPairs, Input.try_pick, if_pos h]
      cases hrp : Tup.pick_impl lv t d.2 (β := β) with
      | none =>
        rw [hrp] at hfm
        simp only [Option.map_none'] at hfm
        simp [firstMaxPair, ← hfm]
      | some od =>
        rw [hrp] at hfm
        simp only [Option.map_some'] at hfm
        simp only [Option.map_some']
        by_cases hc : d.1.cap < od.output.cap
        · rw [if_pos hc]
          simp [firstMaxPair, ← hfm, hc]
        · rw [if_neg hc]
          simp [firstMaxPair, ← hfm, hc]
    · simp only [Tup.pick_impl, Tup.dataMatchingPairs, Input.try_pick, if_neg h]
      cases hrp : Tup.pick_impl lv t d.2 (β := β) with
      | none =>
        rw [hrp] at hfm
        simpa using hfm
      | some od =>
        rw [hrp] at hfm
        simpa using hfm

theorem Tup.pick_impl_written (lv : Layout) (t : Tup) :
    ∀ (d : t.Data) (od : OutputDataM β t.Data),
      Tup.pick_impl lv t d = some od → od.output.written = [] := by
  induction t with
  | base α i lay =>
    intro d od h
    by_cases hl : lay = lv
    · simp [Tup.pick_impl, Input.try_pick, hl] at h
      rw [← h]
    · simp [Tup.pick_impl, Input.try_pick, hl] at h
  | cons α i lay t ih =>
    intro d od h
    by_cases hl : lay = lv
    · simp only [Tup.pick_impl, Input.try_pick, if_pos hl] at h
      cases hrp : Tup.pick_impl lv t d.2 (β := β) with
      | none =>
        rw [hrp] at h
        simp at h
        rw [← h]
      | some od' =>
        rw [hrp] at h
        simp only [Option.map_some'] at h
        by_cases hc : d.1.cap < od'.output.cap
        · rw [if_pos hc] at h
          simp at h
          rw [← h]
          exact ih d.2 od' hrp
        · rw [if_neg hc] at h
          simp at h
          rw [← h]
    · simp only [Tup.pick_impl, Input.try_pick, if_neg hl] at h
      cases hrp : Tup.pick_impl lv t d.2 (β := β) with
      | none => rw [hrp] at h; simp at h
      | some od' =>
        rw [hrp] at h
        simp at h
        rw [← h]
        exact ih d.2 od' hrp

theorem Tup.pick_impl_commit_dataFrom (lv : Layout) (t : Tup) :
    ∀ (d : t.Data) (od : OutputDataM β t.Data),
      Tup.pick_impl lv t d = some od →
      ∀ (vs : t.Vecs) (m : Nat) (d0 : t.Data),
        t.DataFrom vs m d0 → t.DataFrom vs m (od.commit d0) := by
  induction t with
  | base α i lay =>
    intro d od h vs m d0 h0
    by_cases hl : lay = lv
    · simp [Tup.pick_impl, Input.try_pick, hl] at h
      rw [← h]
      obtain ⟨h1, h2, h3, h4⟩ := h0
      exact ⟨h1, h2, h3, h4⟩
    · simp [Tup.pick_impl, Input.try_pick, hl] at h
  | cons α i lay t ih =>
    intro d od h vs m d0 h0
    obtain ⟨⟨g1, g2, g3, g4⟩, hrest⟩ := h0
    by_cases hl : lay = lv
    · simp only [Tup.pick_impl, Input.try_pick, if_pos hl] at h
      cases hrp : Tup.pick_impl lv t d.2 (β := β) with
      | none =>
        rw [hrp] at h
        simp at h
        rw [← h]
        exact ⟨⟨g1, g2, g3, g4⟩, hrest⟩
      | some od' =>
        rw [hrp] at h
        simp only [Option.map_some'] at h
        by_cases hc : d.1.cap < od'.output.cap
        · rw [if_pos hc] at h
          simp at h
          rw [← h]
          exact ⟨⟨g1, g2, g3, g4⟩, ih d.2 od' hrp vs.2 m d0.2 hrest⟩
        · rw [if_neg hc] at h
          simp at h
          rw [← h]
          exact ⟨⟨g1, g2, g3, g4⟩, hrest⟩
    · simp only [Tup.pick_impl, Input.try_pick, if_neg hl] at h
      cases hrp : Tup.pick_impl lv t d.2 (β := β) with
      | none => rw [hrp] at h; simp at h
      | some od' =>
        rw [hrp] at h
        simp at h
        rw [← h]
        exact ⟨⟨g1, g2, g3, g4⟩, ih d.2 od' hrp vs.2 m d0.2 hrest⟩

theorem Tup.pick_impl_isSome (lv : Layout) (t : Tup) (d : t.Data)
    (hc : t.check_pick lv = true) :
    (Tup.pick_impl lv t d (β := β)).isSome = true := by
  have hp := Tup.pick_impl_pairs (β := β) lv t d
  cases h : Tup.pick_impl lv t d (β := β) with
  | none =>
    rw [h] at hp
    simp only [Option.map_none'] at hp
    have hnil := (firstMaxPair_eq_none_iff _).mp hp.symm
    rw [Tup.check_pick_iff t lv d] at hc
    exact absurd hnil hc
  | some od => rfl

theorem Tup.pick_isSome (lv : Layout) (t : Tup) (d : t.Data)
    (hc : t.check_pick lv = true) :
    (Tup.pick lv t d (β := β)).isSome = true := by
  cases t with
  | base α i lay =>
    simp only [Tup.check_pick, beq_iff_eq] at hc
    simp [Tup.pick, Input.try_pick, hc]
  | cons α i lay t =>
    have h := Tup.pick_impl_isSome (β := β) lv (Tup.cons α i lay t) d hc
    cases hp : Tup.pick_impl lv (Tup.cons α i lay t) d (β := β) with
    | none => rw [hp] at h; simp at h
    | some od => simp [Tup.pick, hp]

theorem Tup.pick_written_dataFrom (lv : Layout) (t : Tup) (d : t.Data)
    (o : Output β) (d2 : t.Data) (h : Tup.pick lv t d = some (o, d2)) :
    o.written = [] ∧
      ∀ (vs : t.Vecs) (m : Nat), t.DataFrom vs m d → t.DataFrom vs m d2 := by
  cases t with
  | base α i lay =>
    by_cases hl : lay = lv
    · simp [Tup.pick, Input.try_pick, hl] at h
      obtain ⟨h1, h2⟩ := h
      constructor
      · rw [← h1]
      · intro vs m h0
        rw [← h2]
        obtain ⟨g1, g2, g3, g4⟩ := h0
        exact ⟨g1, g2, g3, g4⟩
    · simp [Tup.pick, Input.try_pick, hl] at h
  | cons α i lay t =>
    simp only [Tup.pick] at h
    cases hp : Tup.pick_impl lv (Tup.cons α i lay t) d (β := β) with
    | none => rw [hp] at h; simp at h
    | some od =>
      rw [hp] at h
      simp at h
      obtain ⟨h1, h2⟩ := h
      constructor
      · rw [← h1]
        exact Tup.pick_impl_written lv _ d od hp
      · intro vs m h0
        rw [← h2]
        exact Tup.pick_impl_commit_dataFrom lv _ d od hp vs m d h0

/-- C9: in the variadic engine's `try_zip_with`, whenever
`check_pick::<R::Ok>()` returns `true`, `In::pick::<R::Ok>` on the
tuple's data returns `Some`, so the `None` branch containing
`std::hint::unreachable_unchecked()` is never executed: the call never
reaches the undefined-behaviour outcome. -/
theorem check_pick_pick_isSome {β ε : Type} :
    (∀ (t : Tup) (lv : Layout) (d : t.Data), t.check_pick lv = true →
        (Tup.pick lv t d (β := β)).isSome = true) ∧
      ∀ (t : Tup) (lv : Layout) (f : t.Item → Except ε β) (vs : t.Vecs),
        try_zip_with t lv f vs ≠ Outcome.ub := by
  constructor
  · intro t lv d hc
    exact Tup.pick_isSome lv t d hc
  · intro t lv f vs
    unfold try_zip_with
    split
    · next hc =>
      dsimp only
      have hs := Tup.pick_isSome (β := β) lv t (t.into_data vs) hc
      cases hp : Tup.pick lv t (t.into_data vs) (β := β) with
      | none => rw [hp] at hs; simp at hs
      | some od =>
        dsimp only
        cases hl : ZipWithIter.loop f ⟨od.1, od.2, t.min_len vs, t.min_len vs, true⟩ [] with
        | inl p => obtain ⟨sd, calls⟩ := p; simp
        | inr p => obtain ⟨e, sf, calls⟩ := p; simp
    · simp

/-- Witness for C9 at a concrete two-input tuple. -/
theorem check_pick_pick_isSome_witness :
    (Tup.cons Nat ⟨0⟩ ⟨4, 4⟩ (Tup.base Nat ⟨0⟩ ⟨8, 8⟩)).check_pick ⟨8, 8⟩ = true ∧
      (Tup.pick ⟨8, 8⟩ (Tup.cons Nat ⟨0⟩ ⟨4, 4⟩ (Tup.base Nat ⟨0⟩ ⟨8, 8⟩))
        ((⟨10, [1], 0, 1, 4, true⟩ : Input Nat), (⟨20, [2], 0, 1, 4, true⟩ : Input Nat))
        (β := Nat)).isSome = true :=
  ⟨by decide,
    (check_pick_pick_isSome (β := Nat) (ε := Unit)).1
      (Tup.cons Nat ⟨0⟩ ⟨4, 4⟩ (Tup.base Nat ⟨0⟩ ⟨8, 8⟩)) ⟨8, 8⟩
      ((⟨10, [1], 0, 1, 4, true⟩ : Input Nat), (⟨20, [2], 0, 1, 4, true⟩ : Input Nat))
      (by decide)⟩

/-- Counterexample to C6 as stated: with two layout-matching inputs tied
at the maximum capacity, `pick` selects the EARLIER adapter of the cons
list (base pointer 10), not the later one (base pointer 20). -/
theorem pick_tie_counterexample :
    (Tup.pick ⟨4, 4⟩ (Tup.cons Nat ⟨0⟩ ⟨4, 4⟩ (Tup.base Nat ⟨0⟩ ⟨4, 4⟩))
        ((⟨10, [1, 2], 0, 2, 6, true⟩ : Input Nat),
         (⟨20, [3, 4], 0, 2, 6, true⟩ : Input Nat))
        (β := Nat)).map (fun p => p.1.start) = some 10 ∧ (10 : Nat) ≠ 20 := by
  constructor
  · rfl
  · decide

/-- C6 (amended): when the head adapter of a cons cell matches the output
layout and the best capacity among the later adapters is not strictly
greater than the head's (in particular when they are tied at the maximum),
`pick` selects the adapter at the EARLIER position — the head: the output
is the head input's allocation and the commit clears the head's
`drop_alloc` bit. -/
theorem pick_tie_earlier (lv : Layout) (α : Type) (i : Inhabited α)
    (lay : Layout) (t : Tup) (a : Input α) (rd : t.Data)
    (od : OutputDataM β (Tup.Data t))
    (hlay : lay = lv) (hrest : Tup.pick_impl lv t rd = some od)
    (hcap : od.output.cap ≤ a.cap) :
    Tup.pick (β := β) lv (Tup.cons α i lay t) (a, rd) =
      some (⟨a.start, [], a.cap⟩, (Input.do_pick a, rd)) := by
  simp only [Tup.pick, Tup.pick_impl, Input.try_pick, if_pos hlay, hrest,
    Option.map_some']
  rw [if_neg (by simp; omega)]
  simp

/-- Witness for C6's amended statement: a tie at capacity 6. -/
theorem pick_tie_earlier_witness :
    Tup.pick_impl ⟨4, 4⟩ (Tup.base Nat ⟨0⟩ ⟨4, 4⟩)
        (⟨21, [3, 4], 0, 2, 6, true⟩ : Input Nat) (β := Nat) =
      some ⟨⟨21, [], 6⟩, Input.do_pick⟩ ∧
    Tup.pick ⟨4, 4⟩ (Tup.cons Nat ⟨0⟩ ⟨4, 4⟩ (Tup.base Nat ⟨0⟩ ⟨4, 4⟩))
        ((⟨11, [1, 2], 0, 2, 6, true⟩ : Input Nat),
         (⟨21, [3, 4], 0, 2, 6, true⟩ : Input Nat)) (β := Nat) =
      some (⟨11, [], 6⟩, (Input.do_pick ⟨11, [1, 2], 0, 2, 6, true⟩,
        (⟨21, [3, 4], 0, 2, 6, true⟩ : Input Nat))) :=
  ⟨rfl,
    pick_tie_earlier ⟨4, 4⟩ Nat ⟨0⟩ ⟨4, 4⟩ (Tup.base Nat ⟨0⟩ ⟨4, 4⟩)
      ⟨11, [1, 2], 0, 2, 6, true⟩ ⟨21, [3, 4], 0, 2, 6, true⟩
      ⟨⟨21, [], 6⟩, Input.do_pick⟩ rfl rfl (by decide)⟩

end GeneralZip

namespace GeneralZip

/-- C1: consider a call on the allocation-reuse path of the variadic
`try_zip_with`/`zip_with` (`check_pick` holds) whose transform first fails
at row `k` (`k < initial_length`).  Because the engine decrements
`remaining_length` (`min_len`) before performing the read-transform-write
of each row, at the point of failure
`initialized_count = initial_length − remaining_length = k + 1`.  The
drop guard drops exactly `initialized_count − 1 = k` output elements —
precisely the already-written transformed values of rows `0..k-1`; the
in-flight row `k` was consumed from the inputs but never written to the
output and is not dropped by the guard — and for every input it drops
exactly that input's elements from position `initialized_count = k + 1`
to that input's end. -/
theorem guard_drops_on_failure {β ε : Type} [Inhabited β] (t : Tup)
    (lv : Layout) (f : t.Item → Except ε β) (vs : t.Vecs) (k : Nat) (e : ε)
    (hcp : t.check_pick lv = true)
    (hk : k < t.min_len vs)
    (hfail : f ((t.peekRows (t.into_data vs) (t.min_len vs)).getD k default) =
      .error e)
    (hok : ∀ i, i < k →
      ∃ v, f ((t.peekRows (t.into_data vs) (t.min_len vs)).getD i default) =
        .ok v) :
    ∃ calls dOut dIn,
      try_zip_with t lv f vs = Outcome.reuse (.error e) calls dOut dIn ∧
        dOut.length = (k + 1) - 1 ∧
        (∀ i, i < k →
          f ((t.peekRows (t.into_data vs) (t.min_len vs)).getD i default) =
            .ok (dOut.getD i default)) ∧
        Tup.DropSpec t vs (k + 1) dIn := by
  have hs := Tup.pick_isSome (β := β) lv t (t.into_data vs) hcp
  obtain ⟨⟨⟨os0, w0, oc0⟩, d2⟩, hp⟩ := Option.isSome_iff_exists.mp hs
  obtain ⟨hw, hdf⟩ :=
    Tup.pick_written_dataFrom lv t (t.into_data vs) ⟨os0, w0, oc0⟩ d2 hp
  have hw' : w0 = [] := hw
  subst hw'
  have hdf2 := hdf vs 0 (Tup.dataFrom_into_data t vs)
  have hrows := Tup.peekRows_eq_of_dataFrom t vs (t.min_len vs) 0 d2
    (t.into_data vs) hdf2 (Tup.dataFrom_into_data t vs)
  have hkr : k < (t.peekRows (t.into_data vs) (t.min_len vs)).length := by
    rw [Tup.peekRows_length]
    exact hk
  obtain ⟨outs, houts⟩ := runSeq_eq_inr_of default hkr hfail hok
  obtain ⟨-, holen⟩ := runSeq_inr_length houts
  have houts2 : runSeq f (t.peekRows d2 (t.min_len vs)) = Sum.inr (k, e, outs) := by
    rw [hrows]
    exact houts
  obtain ⟨-, hloop⟩ := ZipWithIter.gz_loop_spec f (t.min_len vs) os0 [] oc0 d2
    (t.min_len vs) true []
  have hloop2 := hloop k e outs houts2
  have hguard : t.min_len vs - (t.min_len vs - (k + 1)) = k + 1 := by omega
  refine ⟨[] ++ (t.peekRows d2 (t.min_len vs)).take (k + 1), outs,
    t.drop_rest (t.advanceData d2 (k + 1)) (k + 1), ?_, ?_, ?_, ?_⟩
  · unfold try_zip_with
    rw [if_pos hcp]
    dsimp only
    rw [hp]
    dsimp only
    rw [hloop2]
    dsimp only [ZipWithIter.dropGuard]
    rw [hguard]
    simp [List.take_of_length_le, holen]
  · rw [holen]
    omega
  · intro i hi
    exact (runSeq_inr houts default default).2.2.2 i hi
  · have hadv := Tup.dataFrom_advanceData t vs (k + 1) 0 d2 hdf2
    rw [Nat.zero_add] at hadv
    exact Tup.dropSpec_drop_rest t vs (k + 1) _ hadv

/-- Witness for C1: a two-input tuple whose transform fails at the first
row. -/
theorem guard_drops_on_failure_witness :
    (Tup.cons Nat ⟨0⟩ ⟨4, 4⟩ (Tup.base Nat ⟨0⟩ ⟨4, 4⟩)).check_pick ⟨4, 4⟩ = true ∧
    0 < (Tup.cons Nat ⟨0⟩ ⟨4, 4⟩ (Tup.base Nat ⟨0⟩ ⟨4, 4⟩)).min_len
      ((⟨1, [5, 6], 4⟩ : Vec Nat), (⟨2, [7, 8], 4⟩ : Vec Nat)) ∧
    ∃ calls dOut dIn,
      try_zip_with (Tup.cons Nat ⟨0⟩ ⟨4, 4⟩ (Tup.base Nat ⟨0⟩ ⟨4, 4⟩)) ⟨4, 4⟩
          (fun _ => (.error 9 : Except Nat Nat))
          ((⟨1, [5, 6], 4⟩ : Vec Nat), (⟨2, [7, 8], 4⟩ : Vec Nat)) =
        Outcome.reuse (.error 9) calls dOut dIn ∧
      dOut.length = (0 + 1) - 1 ∧
      (∀ i, i < 0 →
        (fun _ => (.error 9 : Except Nat Nat))
            (((Tup.cons Nat ⟨0⟩ ⟨4, 4⟩ (Tup.base Nat ⟨0⟩ ⟨4, 4⟩)).peekRows
              ((Tup.cons Nat ⟨0⟩ ⟨4, 4⟩ (Tup.base Nat ⟨0⟩ ⟨4, 4⟩)).into_data
                ((⟨1, [5, 6], 4⟩ : Vec Nat), (⟨2, [7, 8], 4⟩ : Vec Nat)))
              ((Tup.cons Nat ⟨0⟩ ⟨4, 4⟩ (Tup.base Nat ⟨0⟩ ⟨4, 4⟩)).min_len
                ((⟨1, [5, 6], 4⟩ : Vec Nat), (⟨2, [7, 8], 4⟩ : Vec Nat)))).getD i
              default) =
          .ok (dOut.getD i default)) ∧
      Tup.DropSpec (Tup.cons Nat ⟨0⟩ ⟨4, 4⟩ (Tup.base Nat ⟨0⟩ ⟨4, 4⟩))
        ((⟨1, [5, 6], 4⟩ : Vec Nat), (⟨2, [7, 8], 4⟩ : Vec Nat)) (0 + 1) dIn :=
  ⟨by decide, by decide,
    guard_drops_on_failure (Tup.cons Nat ⟨0⟩ ⟨4, 4⟩ (Tup.base Nat ⟨0⟩ ⟨4, 4⟩))
      ⟨4, 4⟩ (fun _ => (.error 9 : Except Nat Nat))
      ((⟨1, [5, 6], 4⟩ : Vec Nat), (⟨2, [7, 8], 4⟩ : Vec Nat)) 0 9
      (by decide) (by decide) rfl (by intro i hi; omega)⟩

end GeneralZip

end VecUtils
